import Mathlib

/-!
Verification development for the color-tap game engine
(src/src/components/game/GameCanvas.tsx together with the shared game
types module).  The per-frame simulation is shallowly embedded over the
rationals:

* JavaScript numbers are modelled as exact rationals; every decimal
  literal of the source (0.35, 16.67, 0.05, ...) is taken as the exact
  rational it denotes.
* Math.PI is modelled by the exact rational value of the IEEE-754 double
  that JavaScript's Math.PI denotes, called MPI below.
* The transcendental library calls Math.sqrt and Math.atan2 are modelled
  as an oracle structure ExtMath supplied to the engine; all theorems
  quantify over the oracle unless a concrete run needs a specific one.
* Math.random() is modelled as a stream of rationals (an arbitrary
  function from draw index to value) consumed left to right.  The two
  debug-only draws that merely gate console.log statements (in drawBall
  and inside checkCollision) influence nothing but the stream position
  and are elided from the model.
* The random string id of generateId is modelled by storing the consumed
  raw draw.
-/

namespace ColorTap

/-- Palette of ball / segment colors, from the shared game types module. -/
inductive GameColor where
  | cyan
  | purple
  | pink
  | yellow
deriving DecidableEq, Repr

/-- Fixed cyclic palette order COLOR_ORDER from the game types module. -/
def COLOR_ORDER : List GameColor := [.cyan, .purple, .pink, .yellow]

/-- Exact rational value of the IEEE-754 double denoted by Math.PI. -/
def MPI : ℚ := 884279719003555 / 281474976710656

/-- Gravity constant (0.35). -/
def GRAVITY : ℚ := 7 / 20

/-- Jump impulse constant (-9). -/
def JUMP_FORCE : ℚ := -9

/-- Ball radius constant (15). -/
def BALL_RADIUS : ℚ := 15

/-- Vertical gap between consecutive obstacles (300). -/
def OBSTACLE_GAP : ℚ := 300

/-- Successor in the fixed cyclic palette order: the model of
COLOR_ORDER[(COLOR_ORDER.indexOf(c) + 1) % COLOR_ORDER.length]. -/
def nextColor (c : GameColor) : GameColor :=
  COLOR_ORDER.getD ((COLOR_ORDER.indexOf c + 1) % COLOR_ORDER.length) .cyan

/-- Model of getRandomColor: COLOR_ORDER[Math.floor(r * 4)] for a random
draw r; out-of-range indices (impossible for r in [0,1)) default. -/
def getRandomColor (r : ℚ) : GameColor :=
  COLOR_ORDER.getD (⌊r * 4⌋).toNat .cyan

/-- Obstacle type variants from the game types module (doubleLine is
declared there but never constructed by the engine). -/
inductive ObstacleType where
  | ring
  | dotCircle
  | halfRing
  | doubleLine
deriving DecidableEq, Repr

/-- Ball record. -/
structure Ball where
  x : ℚ
  y : ℚ
  radius : ℚ
  velocity : ℚ
  color : GameColor
deriving DecidableEq, Repr

/-- Obstacle record.  The id field stores the raw random draw consumed by
generateId. -/
structure Obstacle where
  id : ℚ
  type : ObstacleType
  y : ℚ
  rotation : ℚ
  rotationSpeed : ℚ
  radius : ℚ
  passed : Bool
deriving DecidableEq, Repr

/-- Star collectible record. -/
structure Star where
  id : ℚ
  x : ℚ
  y : ℚ
  collected : Bool
deriving DecidableEq, Repr

/-- Color switcher record. -/
structure ColorSwitcher where
  id : ℚ
  x : ℚ
  y : ℚ
  used : Bool
deriving DecidableEq, Repr

/-- Session status. -/
inductive GStatus where
  | menu
  | playing
  | gameover
deriving DecidableEq, Repr

/-- Aggregate game state (the GameState record of the source). -/
structure GameState where
  status : GStatus
  score : ℕ
  highScore : ℚ
  ball : Ball
  obstacles : List Obstacle
  stars : List Star
  colorSwitchers : List ColorSwitcher
  cameraY : ℚ
deriving DecidableEq, Repr

/-- Pending deferred color change (pendingColorChangeRef contents). -/
structure PendingColorChange where
  timestamp : ℚ
  newColor : GameColor
deriving DecidableEq, Repr

/-- Whole simulation context: the game state plus the component-level
mutable refs (flash timer, pending color change, last frame time, last
obstacle speed) and the random stream position. -/
structure SimState where
  game : GameState
  flash : ℚ
  pending : Option PendingColorChange
  lastTime : ℚ
  lastObstacleSpeed : ℚ
  rngIdx : ℕ
deriving DecidableEq, Repr

/-- Oracle for the two transcendental library functions the engine calls:
Math.sqrt (on the sum of squares) and Math.atan2. -/
structure ExtMath where
  sqrtq : ℚ → ℚ
  atan2q : ℚ → ℚ → ℚ

/-- Normalization of an angle into [0, 2*MPI), modelling the two source
loops: while (angle < 0) angle += 2*PI; while (angle >= 2*PI) angle -= 2*PI.
Both loops compute the unique representative of angle modulo 2*MPI lying
in [0, 2*MPI); the lemmas normalizeAngle_neg_step, normalizeAngle_ge_step
and normalizeAngle_eq_self below establish exactly the defining equations
of those loops, and normalizeAngle_nonneg / normalizeAngle_lt /
normalizeAngle_sub_int the range and congruence. -/
def normalizeAngle (a : ℚ) : ℚ :=
  a - 2 * MPI * ⌊a / (2 * MPI)⌋

/-- Segment color resolution of checkCollision, given the normalized
rotation-adjusted angle: quadrants for ring / halfRing, 24 dots grouped
6 per color for dotCircle.  JavaScript % on these non-negative indices
agrees with Int.emod. -/
def segmentColorOf (t : ObstacleType) (angle : ℚ) : GameColor :=
  if t = .dotCircle then
    let dotIndex : ℤ := ⌊angle / (MPI * 2) * 24⌋
    let colorIndex : ℤ := ⌊(dotIndex : ℚ) / 6⌋
    COLOR_ORDER.getD (colorIndex % 4).toNat .cyan
  else
    let segmentIndex : ℤ := ⌊angle / (MPI / 2)⌋
    COLOR_ORDER.getD (segmentIndex % 4).toNat .cyan

/-- Model of checkCollision.  The debug-only Math.random draw that gates a
console.log inside the source function is elided (it influences nothing
but the stream position); the function itself is pure and mutates no state. -/
def checkCollision (ext : ExtMath) (ball : Ball) (obstacle : Obstacle)
    (centerX : ℚ) : Bool :=
  let dx := ball.x - centerX
  let dy := ball.y - obstacle.y
  let distance := ext.sqrtq (dx * dx + dy * dy)
  let thickness : ℚ := if obstacle.type = .dotCircle then 20 else 14
  let innerRadius := obstacle.radius - thickness - ball.radius
  let outerRadius := obstacle.radius + thickness + ball.radius
  if distance ≤ innerRadius ∨ distance ≥ outerRadius then false
  else
    let angle := normalizeAngle (ext.atan2q dy dx - obstacle.rotation)
    decide (ball.color ≠ segmentColorOf obstacle.type angle)

/-- Model of checkColorSwitcher (proximity test). -/
def checkColorSwitcher (ext : ExtMath) (ball : Ball) (sw : ColorSwitcher) :
    Bool :=
  let dx := ball.x - sw.x
  let dy := ball.y - sw.y
  let distance := ext.sqrtq (dx * dx + dy * dy)
  decide (distance < ball.radius + 15)

/-- Random stream: draw index to value.  Each Math.random() call of the
source consumes the next index. -/
def Rng : Type := ℕ → ℚ

/-- Candidate rotation speed sampled by one iteration of the do-while loop
of createObstacle; consumes the two draws at positions i (direction) and
i+1 (random factor).  Decimal constants: 1.2 = 6/5, 0.6 = 3/5,
0.008 = 1/125, 0.004 = 1/250, 2.5 = 5/2. -/
def sampleCandidate (t : ObstacleType) (index : ℕ) (rng : Rng) (i : ℕ) : ℚ :=
  let direction : ℚ := if rng i > 1 / 2 then 1 else -1
  let globalSpeedMultiplier : ℚ := 6 / 5
  let randomFactor : ℚ := 3 / 5 + rng (i + 1) * 1
  let indexFactor : ℚ := 1 / 125 + ((index % 11 : ℕ) : ℚ) * (1 / 250)
  let baseSpeed : ℚ := if t = .dotCircle then indexFactor * (5 / 2) else indexFactor
  baseSpeed * direction * randomFactor * globalSpeedMultiplier

/-- Acceptance test of the rejection-sampling loop: the candidate differs
from the previous speed by more than max(20% of |prev|, 0.005), or has the
opposite direction in the sense (s > 0) different from (p > 0). -/
def speedAccept (s p : ℚ) : Bool :=
  let speedDiff := |(|s| - |p|)|
  let minDiff := max (|p| * (1 / 5)) (1 / 200)
  decide (speedDiff > minDiff) || (decide (s > 0) != decide (p > 0))

/-- Rejection-sampling loop of createObstacle, with its attempts counter.
The source loop breaks as soon as the candidate is accepted or attempts
reaches maxAttempts = 10; fuel is the remaining iteration budget
(called with fuel = 10, attempts = 0, so the fuel never runs out before
the attempts cap fires).  Returns (speed, attempts, next stream index). -/
def pickSpeed (t : ObstacleType) (index : ℕ) (prevSpeed : ℚ) (rng : Rng) :
    ℕ → ℕ → ℕ → ℚ × ℕ × ℕ
  | 0, attempts, i => (sampleCandidate t index rng i, attempts + 1, i + 2)
  | fuel + 1, attempts, i =>
    let s := sampleCandidate t index rng i
    let attempts' := attempts + 1
    if speedAccept s prevSpeed || decide (attempts' ≥ 10) then (s, attempts', i + 2)
    else pickSpeed t index prevSpeed rng fuel attempts' (i + 2)

/-- Model of createObstacle.  Type selection is index-based; the stream is
consumed in source order: the sampling loop first (two draws per attempt),
then generateId, then the initial rotation Math.random() * Math.PI * 2.
The canvasWidth argument of the source is kept although unused. -/
def createObstacle (rng : Rng) (i : ℕ) (canvasWidth y : ℚ) (index : ℕ)
    (prevSpeed : ℚ) : Obstacle × ℕ :=
  let t : ObstacleType :=
    if index % 5 = 0 then .dotCircle
    else if index % 2 = 0 then .ring else .halfRing
  let r := pickSpeed t index prevSpeed rng 10 0 i
  let rotationSpeed := r.1
  let i₁ := r.2.2
  let oid := rng i₁
  let rot := rng (i₁ + 1) * MPI * 2
  (⟨oid, t, y, rot, rotationSpeed, 140, false⟩, i₁ + 2)

/-- Model of generateInitialObstacles: the source's fixed five-iteration
loop, unrolled; obstacle k sits at canvasHeight * 0.3 - k * OBSTACLE_GAP
and is created with the previous obstacle's rotation speed (0 for the
first).  Returns the obstacles, the next stream index and the last
obstacle's speed as stored into lastObstacleSpeedRef. -/
def generateInitialObstacles (rng : Rng) (i : ℕ)
    (canvasWidth canvasHeight : ℚ) : List Obstacle × ℕ × ℚ :=
  let startY := canvasHeight * (3 / 10)
  let r0 := createObstacle rng i canvasWidth (startY - 0 * OBSTACLE_GAP) 0 0
  let r1 := createObstacle rng r0.2 canvasWidth (startY - 1 * OBSTACLE_GAP) 1
    r0.1.rotationSpeed
  let r2 := createObstacle rng r1.2 canvasWidth (startY - 2 * OBSTACLE_GAP) 2
    r1.1.rotationSpeed
  let r3 := createObstacle rng r2.2 canvasWidth (startY - 3 * OBSTACLE_GAP) 3
    r2.1.rotationSpeed
  let r4 := createObstacle rng r3.2 canvasWidth (startY - 4 * OBSTACLE_GAP) 4
    r3.1.rotationSpeed
  ([r0.1, r1.1, r2.1, r3.1, r4.1], r4.2, r4.1.rotationSpeed)

/-- Model of initGame: random initial color (draw 0), ball centered at
canvasWidth / 2 and canvasHeight * 0.7, five initial obstacles, camera 0.
The highScore read from storage is an input parameter hs. -/
def initGame (rng : Rng) (canvasWidth canvasHeight hs : ℚ) : SimState :=
  let initialColor := getRandomColor (rng 0)
  let r := generateInitialObstacles rng 1 canvasWidth canvasHeight
  { game :=
    { status := .playing
      score := 0
      highScore := hs
      ball :=
        { x := canvasWidth / 2
          y := canvasHeight * (7 / 10)
          radius := BALL_RADIUS
          velocity := 0
          color := initialColor }
      obstacles := r.1
      stars := []
      colorSwitchers := []
      cameraY := 0 }
    flash := 0
    pending := none
    lastTime := 0
    lastObstacleSpeed := r.2.2
    rngIdx := r.2.1 }

/-- Outward notifications of a tick: the onScoreChange and onGameOver
callbacks, each carrying the integer score passed to it. -/
inductive GEvent where
  | scoreChanged (n : ℕ)
  | gameOver (n : ℕ)
deriving DecidableEq, Repr

/-- Delta-time computation of the loop head:
lastTime truthy gives (timestamp - lastTime) / 16.67, otherwise 1;
16.67 is the exact rational 1667/100. -/
def dtOf (lastTime ts : ℚ) : ℚ :=
  if lastTime = 0 then 1 else (ts - lastTime) / (1667 / 100)

/-- Flash decay at the top of every frame: 0.05 = 1/20. -/
def decayFlash (flash dt : ℚ) : ℚ :=
  if flash > 0 then max 0 (flash - 1 / 20 * dt) else flash

/-- Deferred color change application, run before physics on every playing
tick: if a change is pending and the frame timestamp has reached its
target, set the ball color to the stored target, set the flash intensity
to its maximum 1.0 and clear the pending change; otherwise leave
everything unchanged. -/
def applyPendingStep (pending : Option PendingColorChange) (ts : ℚ)
    (ball : Ball) (flash : ℚ) : Ball × ℚ × Option PendingColorChange :=
  match pending with
  | some p =>
    if ts ≥ p.timestamp then ({ ball with color := p.newColor }, 1, none)
    else (ball, flash, some p)
  | none => (ball, flash, none)

/-- Obstacle rotation update: rotation += rotationSpeed * dt. -/
def rotateObs (dt : ℚ) (l : List Obstacle) : List Obstacle :=
  l.map fun o => { o with rotation := o.rotation + o.rotationSpeed * dt }

/-- Accumulator of the pass/score loop: running score, pending change and
emitted notifications. -/
structure ScoreAcc where
  score : ℕ
  pending : Option PendingColorChange
  events : List GEvent
deriving DecidableEq, Repr

/-- One step of the pass/score loop: an unpassed obstacle whose margin
line the ball has crossed is marked passed, the score is incremented and
notified, and when the new score is a multiple of 2 with no pending change
a deferred color change is scheduled 1000 ms out targeting the successor
of the ball's current color. -/
def passObstacle (ballY ts : ℚ) (ballColor : GameColor) (acc : ScoreAcc)
    (o : Obstacle) : ScoreAcc × Obstacle :=
  if !o.passed && decide (ballY < o.y - o.radius - 20) then
    let score' := acc.score + 1
    let pending' :=
      if score' % 2 = 0 && acc.pending.isNone then
        some ⟨ts + 1000, nextColor ballColor⟩
      else acc.pending
    (⟨score', pending', acc.events ++ [.scoreChanged score']⟩,
      { o with passed := true })
  else (acc, o)

/-- The pass/score loop over the obstacle list, in order. -/
def scorePhase (ballY ts : ℚ) (ballColor : GameColor) :
    ScoreAcc → List Obstacle → ScoreAcc × List Obstacle
  | acc, [] => (acc, [])
  | acc, o :: rest =>
    let r := passObstacle ballY ts ballColor acc o
    let rr := scorePhase ballY ts ballColor r.1 rest
    (rr.1, r.2 :: rr.2)

/-- Minimum vertical position among the obstacles
(Math.min(...obstacles.map(o => o.y))).  The none case corresponds to the
empty spread, where JS Math.min returns Infinity; claim C10 proves the
obstacle list of every reachable playing state is non-empty, so the
engine never evaluates that case.  The tick models the empty case as a
no-spawn stub. -/
def frontierY : List Obstacle → Option ℚ
  | [] => none
  | o :: rest => some (rest.foldl (fun m o' => min m o'.y) o.y)

/-- Per-frame inputs of the loop: the requestAnimationFrame timestamp,
whether a tap was delivered since the previous frame, and the gameStatus
prop gate (playing versus paused). -/
structure TickInput where
  ts : ℚ
  tap : Bool
  propPlaying : Bool
deriving DecidableEq, Repr

/-- Tap handling (handleTap): gated on the gameStatus prop, sets the ball
velocity to the fixed jump impulse, unconditionally otherwise. -/
def tapStep (inp : TickInput) (s : SimState) : SimState :=
  if inp.tap && inp.propPlaying then
    { s with game :=
      { s.game with ball := { s.game.ball with velocity := JUMP_FORCE } } }
  else s

/-- Delta time of a frame. -/
def tickDt (s : SimState) (inp : TickInput) : ℚ := dtOf s.lastTime inp.ts

/-- Flash intensity after the top-of-frame decay. -/
def tickFlash₁ (s : SimState) (inp : TickInput) : ℚ :=
  decayFlash s.flash (tickDt s inp)

/-- Result of the deferred color change phase (ball, flash, pending). -/
def tickApplied (s : SimState) (inp : TickInput) :
    Ball × ℚ × Option PendingColorChange :=
  applyPendingStep s.pending inp.ts s.game.ball (tickFlash₁ s inp)

/-- Ball after the physics integration of a playing tick: the velocity is
updated first (velocity += gravity * dt) and the position then uses the
updated velocity (y += velocity * dt). -/
def tickBall (s : SimState) (inp : TickInput) : Ball :=
  let dt := tickDt s inp
  let b₁ := (tickApplied s inp).1
  let b₂ := { b₁ with velocity := b₁.velocity + GRAVITY * dt }
  { b₂ with y := b₂.y + b₂.velocity * dt }

/-- Camera offset after the exponential smoothing of a playing tick; the
smoothing factor 0.1 is not scaled by dt. -/
def tickCamera (ch : ℚ) (s : SimState) (inp : TickInput) : ℚ :=
  s.game.cameraY + ((tickBall s inp).y - ch * (7 / 10) - s.game.cameraY) * (1 / 10)

/-- Accumulator and obstacle list after the pass/score loop of a playing
tick (run on the rotated obstacles, before the collision loop). -/
def tickScored (s : SimState) (inp : TickInput) : ScoreAcc × List Obstacle :=
  scorePhase (tickBall s inp).y inp.ts (tickBall s inp).color
    ⟨s.game.score, (tickApplied s inp).2.2, []⟩
    (rotateObs (tickDt s inp) s.game.obstacles)

/-- First obstacle the collision loop reports this tick, if any: the first
not-yet-passed obstacle for which checkCollision holds. -/
def tickHit (ext : ExtMath) (cw : ℚ) (s : SimState) (inp : TickInput) :
    Option Obstacle :=
  (tickScored s inp).2.find? fun o =>
    !o.passed && checkCollision ext (tickBall s inp) o (cw / 2)

/-- One invocation of gameLoop.  Returns the new simulation state, the
emitted notifications and the list of obstacles spawned by the generation
branch this tick (the latter is a pure observation used to phrase claims
about creation order).  Phase order follows the source exactly: delta
time and flash decay, then — only when the prop is playing — deferred
color change, physics, camera smoothing, obstacle rotation, pass/score
loop, collision loop (early return on hit), generation, switcher
proximity marking, pruning of the three collections, and finally the
bottom boundary check. -/
def tick (ext : ExtMath) (rng : Rng) (cw ch : ℚ) (s : SimState)
    (inp : TickInput) : SimState × List GEvent × List Obstacle :=
  let centerX := cw / 2
  if inp.propPlaying = false then
    ({ s with flash := tickFlash₁ s inp, lastTime := inp.ts }, [], [])
  else
    let flash₂ := (tickApplied s inp).2.1
    let ball₃ := tickBall s inp
    let camera₁ := tickCamera ch s inp
    let acc := (tickScored s inp).1
    let obs₂ := (tickScored s inp).2
    match tickHit ext cw s inp with
    | some _ =>
      let g : GameState :=
        { s.game with
            status := .gameover
            score := acc.score
            ball := ball₃
            obstacles := obs₂
            cameraY := camera₁ }
      (⟨g, flash₂, acc.pending, inp.ts, s.lastObstacleSpeed, s.rngIdx⟩,
       acc.events ++ [.gameOver acc.score], [])
    | none =>
      let gen :
          List Obstacle × List ColorSwitcher × List Star × ℚ × ℕ × List Obstacle :=
        match frontierY obs₂ with
        | none =>
          (obs₂, s.game.colorSwitchers, s.game.stars, s.lastObstacleSpeed,
            s.rngIdx, [])
        | some hi =>
          if ball₃.y < hi + OBSTACLE_GAP * 2 then
            let r := createObstacle rng s.rngIdx cw (hi - OBSTACLE_GAP)
              obs₂.length s.lastObstacleSpeed
            let newOb := r.1
            let i₁ := r.2
            let sw : ColorSwitcher :=
              ⟨rng i₁, centerX, hi - OBSTACLE_GAP / 2, false⟩
            let starR : List Star × ℕ :=
              if rng (i₁ + 1) > 1 / 2 then
                (s.game.stars ++
                  [⟨rng (i₁ + 2), centerX, hi - OBSTACLE_GAP / 2 - 40, false⟩],
                  i₁ + 3)
              else (s.game.stars, i₁ + 2)
            (obs₂ ++ [newOb], s.game.colorSwitchers ++ [sw], starR.1,
              newOb.rotationSpeed, starR.2, [newOb])
          else
            (obs₂, s.game.colorSwitchers, s.game.stars, s.lastObstacleSpeed,
              s.rngIdx, [])
      let obs₃ := gen.1
      let switchers₁ := gen.2.1
      let stars₁ := gen.2.2.1
      let lastSpeed₁ := gen.2.2.2.1
      let rix₁ := gen.2.2.2.2.1
      let spawned := gen.2.2.2.2.2
      let switchers₂ := switchers₁.map fun sw =>
        if !sw.used && checkColorSwitcher ext ball₃ sw then
          { sw with used := true }
        else sw
      let obs₄ := obs₃.filter fun o => decide (o.y < camera₁ + ch + 200)
      let switchers₃ := switchers₂.filter fun sw => decide (sw.y < camera₁ + ch + 200)
      let stars₂ := stars₁.filter fun st => decide (st.y < camera₁ + ch + 200)
      let g : GameState :=
        { s.game with
            score := acc.score
            ball := ball₃
            obstacles := obs₄
            stars := stars₂
            colorSwitchers := switchers₃
            cameraY := camera₁ }
      if ball₃.y > camera₁ + ch + 50 then
        (⟨{ g with status := .gameover }, flash₂, acc.pending, inp.ts,
            lastSpeed₁, rix₁⟩,
         acc.events ++ [.gameOver acc.score], spawned)
      else
        (⟨g, flash₂, acc.pending, inp.ts, lastSpeed₁, rix₁⟩,
         acc.events, spawned)

/-- Session driver modelling the requestAnimationFrame scheduling: a next
frame is requested only while the internal status is playing, so after a
transition to gameover no further tick executes and the state is final.
Taps are delivered before the frame they precede. -/
def runSession (ext : ExtMath) (rng : Rng) (cw ch : ℚ) :
    SimState → List TickInput → SimState × List GEvent × List Obstacle
  | s, [] => (s, [], [])
  | s, inp :: rest =>
    if s.game.status = .playing then
      let s₁ := tapStep inp s
      let r := tick ext rng cw ch s₁ inp
      let rr := runSession ext rng cw ch r.1 rest
      (rr.1, r.2.1 ++ rr.2.1, r.2.2 ++ rr.2.2)
    else (s, [], [])

/-- Every obstacle created during a session driven by the given inputs, in
creation order: the five initial obstacles followed by each obstacle the
generation branch spawned. -/
def allCreated (ext : ExtMath) (rng : Rng) (cw ch hs : ℚ)
    (inputs : List TickInput) : List Obstacle :=
  let s₀ := initGame rng cw ch hs
  s₀.game.obstacles ++ (runSession ext rng cw ch s₀ inputs).2.2

/-- Obstacle type the claims ascribe to generation index i: every fifth
index gives the dot ring, otherwise ring and half ring alternate. -/
def claimedTypeOfIndex (i : ℕ) : ObstacleType :=
  if i % 5 = 0 then .dotCircle
  else if i % 2 = 0 then .ring else .halfRing

/-- Rotation update of a single obstacle. -/
def rotateOb (dt : ℚ) (o : Obstacle) : Obstacle :=
  { o with rotation := o.rotation + o.rotationSpeed * dt }

/-- Flag update a single obstacle receives from the pass/score loop. -/
def markPassed (ballY : ℚ) (o : Obstacle) : Obstacle :=
  if !o.passed && decide (ballY < o.y - o.radius - 20) then
    { o with passed := true }
  else o

/-- Number of obstacles newly passed this tick: unpassed obstacles whose
margin line the ball has moved strictly above. -/
def newlyPassedCount (ballY : ℚ) (l : List Obstacle) : ℕ :=
  (l.filter fun o => !o.passed && decide (ballY < o.y - o.radius - 20)).length

/-- Score notifications the pass/score loop emits when the score starts at
n and k obstacles are newly passed. -/
def expectedScoreEvents (n k : ℕ) : List GEvent :=
  (List.range k).map fun j => .scoreChanged (n + j + 1)

/-- Test for a game-over notification. -/
def isGameOverEv : GEvent → Bool
  | .gameOver _ => true
  | .scoreChanged _ => false

/-- Number of game-over notifications in an event list. -/
def countGameOver (l : List GEvent) : ℕ :=
  (l.filter isGameOverEv).length

/-- Number of pending deferred color changes a ref can hold. -/
def pendingCount : Option PendingColorChange → ℕ
  | none => 0
  | some _ => 1

/-- Bottom boundary condition of a playing tick (ball fell below the
visible play area). -/
def tickFellOut (ch : ℚ) (s : SimState) (inp : TickInput) : Prop :=
  (tickBall s inp).y > tickCamera ch s inp + ch + 50

/-- States reachable within one session: the initial state, and closure
under tap delivery and ticks.  Ticks execute only while the internal
status is playing (requestAnimationFrame is re-requested only then) and
carry a monotone timestamp. -/
inductive Reachable (ext : ExtMath) (rng : Rng) (cw ch hs : ℚ) : SimState → Prop
  | init : Reachable ext rng cw ch hs (initGame rng cw ch hs)
  | tap (s : SimState) (inp : TickInput) (h : Reachable ext rng cw ch hs s) :
      Reachable ext rng cw ch hs (tapStep inp s)
  | tick (s : SimState) (inp : TickInput) (h : Reachable ext rng cw ch hs s)
      (hplay : s.game.status = .playing) (hts : s.lastTime ≤ inp.ts) :
      Reachable ext rng cw ch hs (tick ext rng cw ch s inp).1

/-- Invariant tying a pending deferred change to the ball color: the
stored target is exactly one palette step ahead of the current color. -/
def pendingInv (s : SimState) : Prop :=
  ∀ p, s.pending = some p → p.newColor = nextColor s.game.ball.color

/-- Playing-state invariant behind claim C10: non-empty obstacle list, the
velocity floor of the jump impulse, and the ball at least one gap-step
below the frontier. -/
def obsInv (s : SimState) : Prop :=
  s.game.status = .playing →
    s.game.obstacles ≠ [] ∧ -9 ≤ s.game.ball.velocity ∧
      ∀ f, frontierY s.game.obstacles = some f → f + 300 ≤ s.game.ball.y

/-- Fuel-driven integer Newton iteration for square roots (structural
recursion, so the kernel can evaluate it; 64 steps suffice far beyond the
magnitudes this development touches). -/
def sqrtGo (n : ℕ) : ℕ → ℕ → ℕ
  | 0, x => x
  | fuel + 1, x =>
    let x' := (x + n / x) / 2
    if x' < x then sqrtGo n fuel x' else x

/-- Integer square root (floor) via Newton iteration. -/
def natSqrt (n : ℕ) : ℕ :=
  if n ≤ 1 then n else sqrtGo n 64 n

/-- Exact rational square root oracle: models Math.sqrt on the perfect
rational squares that the concrete run below feeds it (the ball never
leaves the lane center, so every radicand is the square of a rational). -/
def wsqrt (q : ℚ) : ℚ :=
  (natSqrt q.num.toNat : ℚ) / (natSqrt q.den : ℚ)

/-- Math.atan2 oracle on the coordinate axes, which are the only points
the concrete run below queries (the ball stays on the lane center, so
dx = 0 at every collision check). -/
def watan2 (dy dx : ℚ) : ℚ :=
  if dx = 0 then
    if dy > 0 then MPI / 2 else if dy < 0 then -(MPI / 2) else 0
  else if dx > 0 then 0 else MPI

/-- Concrete oracle used by the counterexample run. -/
def ext₀ : ExtMath := ⟨wsqrt, watan2⟩

/-- Concrete random stream of the counterexample run (all values in
[0, 1); indices beyond the 27 the run consumes default to 1/2). -/
def rng₀ : Rng := fun n =>
  match n with
  | 0 => 0
  | 1 => 3 / 4
  | 2 => 1 / 2
  | 3 => 0
  | 4 => 0
  | 5 => 1 / 4
  | 6 => 1 / 2
  | 7 => 1 / 100
  | 8 => 4769727755879665343 / 22106992975088875000
  | 9 => 3 / 4
  | 10 => 1 / 2
  | 11 => 1 / 50
  | 12 => 3636504330065959563 / 4421398595017775000
  | 13 => 1 / 4
  | 14 => 1 / 2
  | 15 => 3 / 100
  | 16 => 0
  | 17 => 3 / 4
  | 18 => 1 / 2
  | 19 => 1 / 25
  | 20 => 0
  | 21 => 1 / 4
  | 22 => 1 / 2
  | 23 => 99 / 100
  | 24 => 1 / 10
  | 25 => 21 / 50
  | 26 => 1 / 4
  | _ => 1 / 2

/-- Frame timestamps of the counterexample run (monotone, first frame at
100 ms); every frame carries a tap and the playing prop. -/
def inputs₀ : List TickInput :=
  [100, 2667 / 10, 2167 / 5, 48341 / 100, 13669 / 20, 17003 / 20,
   20337 / 20, 23671 / 20, 5401 / 4, 141693 / 100, 158363 / 100,
   171699 / 100, 1501953 / 700, 1802013 / 700, 2102073 / 700,
   2402133 / 700, 2702193 / 700, 3002253 / 700, 471759 / 100,
   3602373 / 700, 3902433 / 700, 4202493 / 700, 4502553 / 700,
   4802613 / 700, 4919303 / 700, 1244412 / 175].map
    fun (t : ℚ) => ⟨t, true, true⟩

/-- State just before the spawning frame of the concrete run: the first
25 frames processed, plus the 26th frame's tap. -/
def c2WitnessState : SimState :=
  tapStep ⟨1244412 / 175, true, true⟩
    (runSession ext₀ rng₀ 40 100 (initGame rng₀ 40 100 0)
      (inputs₀.take 25)).1

/-- Obstacle the 26th frame of the concrete run spawns. -/
def c2SpawnedOb : Obstacle :=
  ⟨99 / 100, .ring, -1470, 176855943800711 / 281474976710656, -99 / 3125,
    140, false⟩

theorem MPI_pos : 0 < MPI := by norm_num [MPI]

theorem normalizeAngle_eq_fract (a : ℚ) :
    normalizeAngle a = 2 * MPI * Int.fract (a / (2 * MPI)) := by
  have h : (2 * MPI) ≠ 0 := by norm_num [MPI]
  unfold normalizeAngle Int.fract
  field_simp

theorem normalizeAngle_nonneg (a : ℚ) : 0 ≤ normalizeAngle a := by
  rw [normalizeAngle_eq_fract]
  have h1 : (0:ℚ) ≤ 2 * MPI := by norm_num [MPI]
  exact mul_nonneg h1 (Int.fract_nonneg _)

theorem normalizeAngle_lt (a : ℚ) : normalizeAngle a < 2 * MPI := by
  rw [normalizeAngle_eq_fract]
  have h1 : (0:ℚ) < 2 * MPI := by norm_num [MPI]
  have h2 := Int.fract_lt_one (a / (2 * MPI))
  calc 2 * MPI * Int.fract (a / (2 * MPI)) < 2 * MPI * 1 := by
        exact (mul_lt_mul_left h1).mpr h2
    _ = 2 * MPI := by ring

theorem normalizeAngle_sub_int (a : ℚ) :
    ∃ k : ℤ, normalizeAngle a = a + k * (2 * MPI) := by
  refine ⟨-⌊a / (2 * MPI)⌋, ?_⟩
  unfold normalizeAngle
  push_cast
  ring

theorem normalizeAngle_neg_step (a : ℚ) :
    normalizeAngle (a + 2 * MPI) = normalizeAngle a := by
  have h : (2 * MPI) ≠ 0 := by norm_num [MPI]
  unfold normalizeAngle
  have : (a + 2 * MPI) / (2 * MPI) = a / (2 * MPI) + 1 := by
    field_simp
  rw [this, Int.floor_add_one]
  push_cast
  ring

theorem normalizeAngle_ge_step (a : ℚ) :
    normalizeAngle (a - 2 * MPI) = normalizeAngle a := by
  have h := normalizeAngle_neg_step (a - 2 * MPI)
  simpa using h.symm

theorem normalizeAngle_eq_self {a : ℚ} (h0 : 0 ≤ a) (h1 : a < 2 * MPI) :
    normalizeAngle a = a := by
  have hpos : (0:ℚ) < 2 * MPI := by norm_num [MPI]
  have hfl : ⌊a / (2 * MPI)⌋ = 0 := by
    apply Int.floor_eq_zero_iff.mpr
    constructor
    · positivity
    · rw [div_lt_one hpos] at *
      · exact h1
  unfold normalizeAngle
  rw [hfl]
  push_cast
  ring

theorem rotateObs_eq_map (dt : ℚ) (l : List Obstacle) :
    rotateObs dt l = l.map (rotateOb dt) := rfl

@[simp] theorem rotateOb_y (dt : ℚ) (o : Obstacle) : (rotateOb dt o).y = o.y := rfl

@[simp] theorem rotateOb_radius (dt : ℚ) (o : Obstacle) :
    (rotateOb dt o).radius = o.radius := rfl

@[simp] theorem rotateOb_passed (dt : ℚ) (o : Obstacle) :
    (rotateOb dt o).passed = o.passed := rfl

@[simp] theorem rotateOb_type (dt : ℚ) (o : Obstacle) :
    (rotateOb dt o).type = o.type := rfl

@[simp] theorem markPassed_y (b : ℚ) (o : Obstacle) : (markPassed b o).y = o.y := by
  unfold markPassed; split <;> rfl

@[simp] theorem markPassed_radius (b : ℚ) (o : Obstacle) :
    (markPassed b o).radius = o.radius := by
  unfold markPassed; split <;> rfl

@[simp] theorem markPassed_type (b : ℚ) (o : Obstacle) :
    (markPassed b o).type = o.type := by
  unfold markPassed; split <;> rfl

theorem markPassed_of_passed (b : ℚ) (o : Obstacle) (h : o.passed = true) :
    markPassed b o = o := by
  unfold markPassed
  simp [h]

theorem markPassed_passed_mono (b : ℚ) (o : Obstacle) (h : o.passed = true) :
    (markPassed b o).passed = true := by
  rw [markPassed_of_passed b o h]; exact h

theorem passObstacle_obstacle (b ts : ℚ) (c : GameColor) (acc : ScoreAcc)
    (o : Obstacle) : (passObstacle b ts c acc o).2 = markPassed b o := by
  unfold passObstacle markPassed
  split <;> rfl

theorem passObstacle_of_passed (b ts : ℚ) (c : GameColor) (acc : ScoreAcc)
    (o : Obstacle) (h : o.passed = true) :
    passObstacle b ts c acc o = (acc, o) := by
  unfold passObstacle
  simp [h]

theorem passObstacle_score (b ts : ℚ) (c : GameColor) (acc : ScoreAcc)
    (o : Obstacle) :
    (passObstacle b ts c acc o).1.score =
      acc.score + (if !o.passed && decide (b < o.y - o.radius - 20) then 1 else 0) := by
  unfold passObstacle
  split <;> simp_all

theorem scorePhase_obstacles (b ts : ℚ) (c : GameColor) :
    ∀ (l : List Obstacle) (acc : ScoreAcc),
      (scorePhase b ts c acc l).2 = l.map (markPassed b)
  | [], _ => rfl
  | o :: rest, acc => by
    unfold scorePhase
    simp only [List.map_cons]
    rw [passObstacle_obstacle]
    exact congrArg _ (scorePhase_obstacles b ts c rest _)

theorem scorePhase_score (b ts : ℚ) (c : GameColor) :
    ∀ (l : List Obstacle) (acc : ScoreAcc),
      (scorePhase b ts c acc l).1.score = acc.score + newlyPassedCount b l
  | [], acc => by simp [scorePhase, newlyPassedCount]
  | o :: rest, acc => by
    unfold scorePhase
    rw [scorePhase_score b ts c rest _, passObstacle_score]
    unfold newlyPassedCount
    rw [List.filter_cons]
    split
    · simp only [List.length_cons]; omega
    · simp

theorem expectedScoreEvents_succ (n k : ℕ) :
    expectedScoreEvents n (k + 1) =
      GEvent.scoreChanged (n + 1) :: expectedScoreEvents (n + 1) k := by
  unfold expectedScoreEvents
  rw [List.range_succ_eq_map]
  simp only [List.map_cons, List.map_map]
  refine congrArg₂ _ (by norm_num) (List.map_congr_left ?_)
  intro j _
  simp only [Function.comp]
  congr 1
  omega

theorem passObstacle_events (b ts : ℚ) (c : GameColor) (acc : ScoreAcc)
    (o : Obstacle) :
    (passObstacle b ts c acc o).1.events =
      acc.events ++
        (if !o.passed && decide (b < o.y - o.radius - 20)
          then [GEvent.scoreChanged (acc.score + 1)] else []) := by
  unfold passObstacle
  split
  · next h => simp [h]
  · next h => simp [h]

theorem scorePhase_events (b ts : ℚ) (c : GameColor) :
    ∀ (l : List Obstacle) (acc : ScoreAcc),
      (scorePhase b ts c acc l).1.events =
        acc.events ++ expectedScoreEvents acc.score (newlyPassedCount b l)
  | [], acc => by simp [scorePhase, newlyPassedCount, expectedScoreEvents]
  | o :: rest, acc => by
    unfold scorePhase
    rw [scorePhase_events b ts c rest _, passObstacle_events, passObstacle_score]
    unfold newlyPassedCount
    rw [List.filter_cons]
    by_cases hcond : (!o.passed && decide (b < o.y - o.radius - 20)) = true
    · simp only [hcond, if_true, List.length_cons, expectedScoreEvents_succ,
        List.append_assoc, List.singleton_append]
    · simp only [Bool.not_eq_true] at hcond
      simp only [hcond, Bool.false_eq_true, if_false, List.append_nil]
      simp

theorem passObstacle_pending_some (b ts : ℚ) (c : GameColor) (acc : ScoreAcc)
    (o : Obstacle) (p : PendingColorChange) (h : acc.pending = some p) :
    (passObstacle b ts c acc o).1.pending = some p := by
  unfold passObstacle
  split
  · simp [h, Option.isNone]
  · exact h

theorem passObstacle_pending_none (b ts : ℚ) (c : GameColor) (acc : ScoreAcc)
    (o : Obstacle) (h : acc.pending = none) :
    (passObstacle b ts c acc o).1.pending =
      if (!o.passed && decide (b < o.y - o.radius - 20))
          && decide ((acc.score + 1) % 2 = 0)
      then some ⟨ts + 1000, nextColor c⟩ else none := by
  unfold passObstacle
  split
  · next hcond => simp [h, hcond, Option.isNone]
  · next hcond => simp [h, hcond]

theorem passObstacle_pending_cases (b ts : ℚ) (c : GameColor) (acc : ScoreAcc)
    (o : Obstacle) :
    (passObstacle b ts c acc o).1.pending = acc.pending ∨
      (acc.pending = none ∧
        (passObstacle b ts c acc o).1.pending = some ⟨ts + 1000, nextColor c⟩) := by
  rcases hp : acc.pending with _ | p
  · rw [passObstacle_pending_none b ts c acc o hp]
    split
    · exact Or.inr ⟨rfl, rfl⟩
    · exact Or.inl rfl
  · rw [passObstacle_pending_some b ts c acc o p hp]
    exact Or.inl rfl

theorem scorePhase_pending_some (b ts : ℚ) (c : GameColor) :
    ∀ (l : List Obstacle) (acc : ScoreAcc) (p : PendingColorChange),
      acc.pending = some p → (scorePhase b ts c acc l).1.pending = some p
  | [], acc, p, h => h
  | o :: rest, acc, p, h => by
    unfold scorePhase
    exact scorePhase_pending_some b ts c rest _ p
      (passObstacle_pending_some b ts c acc o p h)

theorem scorePhase_pending_cases (b ts : ℚ) (c : GameColor) :
    ∀ (l : List Obstacle) (acc : ScoreAcc),
      (scorePhase b ts c acc l).1.pending = acc.pending ∨
        (acc.pending = none ∧
          (scorePhase b ts c acc l).1.pending = some ⟨ts + 1000, nextColor c⟩)
  | [], acc => Or.inl rfl
  | o :: rest, acc => by
    unfold scorePhase
    rcases passObstacle_pending_cases b ts c acc o with h | ⟨hn, hs⟩
    · rcases scorePhase_pending_cases b ts c rest (passObstacle b ts c acc o).1
        with h2 | ⟨hn2, hs2⟩
      · left; rw [h2, h]
      · right; exact ⟨by rw [← h, hn2], hs2⟩
    · right
      exact ⟨hn, scorePhase_pending_some b ts c rest _ _ hs⟩

theorem countGameOver_expected (n k : ℕ) :
    countGameOver (expectedScoreEvents n k) = 0 := by
  unfold countGameOver expectedScoreEvents
  induction k generalizing n with
  | zero => rfl
  | succ k ih =>
    rw [List.range_succ_eq_map]
    simp only [List.map_cons, List.filter_cons, List.map_map]
    simp only [isGameOverEv]
    simpa using ih (n + 1)

theorem foldlMin_le_init : ∀ (l : List Obstacle) (m : ℚ),
    l.foldl (fun a o => min a o.y) m ≤ m
  | [], m => le_refl m
  | o :: rest, m =>
    le_trans (foldlMin_le_init rest (min m o.y)) (min_le_left m o.y)

theorem foldlMin_le_mem : ∀ (l : List Obstacle) (m : ℚ) (o : Obstacle),
    o ∈ l → l.foldl (fun a o => min a o.y) m ≤ o.y := by
  intro l
  induction l with
  | nil => intro m o h; cases h
  | cons hd tl ih =>
    intro m o h
    rcases List.mem_cons.mp h with rfl | h
    · exact le_trans (foldlMin_le_init tl (min m o.y)) (min_le_right m o.y)
    · exact ih (min m hd.y) o h

theorem foldlMin_eq_or : ∀ (l : List Obstacle) (m : ℚ),
    l.foldl (fun a o => min a o.y) m = m ∨
      ∃ o ∈ l, l.foldl (fun a o => min a o.y) m = o.y := by
  intro l
  induction l with
  | nil => intro m; exact Or.inl rfl
  | cons hd tl ih =>
    intro m
    rcases ih (min m hd.y) with h | ⟨o, ho, h⟩
    · simp only [List.foldl_cons]
      rcases min_cases m hd.y with ⟨hm, _⟩ | ⟨hm, _⟩
      · exact Or.inl (h.trans hm)
      · exact Or.inr ⟨hd, List.mem_cons_self hd tl, h.trans hm⟩
    · exact Or.inr ⟨o, List.mem_cons_of_mem hd ho, h⟩

theorem frontierY_le_mem {l : List Obstacle} {f : ℚ}
    (h : frontierY l = some f) {o : Obstacle} (ho : o ∈ l) : f ≤ o.y := by
  cases l with
  | nil => cases h
  | cons hd tl =>
    simp only [frontierY, Option.some_inj] at h
    subst h
    rcases List.mem_cons.mp ho with rfl | ho
    · exact foldlMin_le_init tl o.y
    · exact foldlMin_le_mem tl hd.y o ho

theorem frontierY_mem {l : List Obstacle} {f : ℚ}
    (h : frontierY l = some f) : ∃ o ∈ l, o.y = f := by
  cases l with
  | nil => cases h
  | cons hd tl =>
    simp only [frontierY, Option.some_inj] at h
    rcases foldlMin_eq_or tl hd.y with h2 | ⟨o, ho, h2⟩
    · exact ⟨hd, List.mem_cons_self hd tl, by rw [← h, h2]⟩
    · exact ⟨o, List.mem_cons_of_mem hd ho, by rw [← h, h2]⟩

theorem frontierY_ne_nil {l : List Obstacle} (h : l ≠ []) :
    ∃ f, frontierY l = some f := by
  cases l with
  | nil => exact absurd rfl h
  | cons hd tl => exact ⟨_, rfl⟩

theorem frontierY_map_y {l : List Obstacle} {g : Obstacle → Obstacle}
    (hg : ∀ o, (g o).y = o.y) : frontierY (l.map g) = frontierY l := by
  cases l with
  | nil => rfl
  | cons hd tl =>
    simp only [List.map_cons, frontierY, List.foldl_map, hg, Option.some_inj]

theorem frontierY_append_singleton {l : List Obstacle} {f : ℚ}
    (h : frontierY l = some f) (o : Obstacle) :
    frontierY (l ++ [o]) = some (min f o.y) := by
  cases l with
  | nil => cases h
  | cons hd tl =>
    simp only [frontierY, Option.some_inj] at h
    simp only [List.cons_append, frontierY, List.foldl_append, List.foldl_cons,
      List.foldl_nil, Option.some_inj]
    rw [h]

theorem runSession_not_playing (ext : ExtMath) (rng : Rng) (cw ch : ℚ)
    (s : SimState) (ins : List TickInput) (h : s.game.status ≠ .playing) :
    runSession ext rng cw ch s ins = (s, [], []) := by
  cases ins with
  | nil => rfl
  | cons a rest => simp only [runSession, if_neg h]

theorem tick_playing_ball {ext : ExtMath} {rng : Rng} {cw ch : ℚ}
    {s : SimState} {inp : TickInput} (hprop : inp.propPlaying = true) :
    (tick ext rng cw ch s inp).1.game.ball = tickBall s inp := by
  unfold tick
  rw [if_neg (by simp [hprop])]
  split
  · rfl
  · dsimp only
    split <;> rfl

theorem tick_playing_camera {ext : ExtMath} {rng : Rng} {cw ch : ℚ}
    {s : SimState} {inp : TickInput} (hprop : inp.propPlaying = true) :
    (tick ext rng cw ch s inp).1.game.cameraY = tickCamera ch s inp := by
  unfold tick
  rw [if_neg (by simp [hprop])]
  split
  · rfl
  · dsimp only
    split <;> rfl

theorem tick_playing_pending {ext : ExtMath} {rng : Rng} {cw ch : ℚ}
    {s : SimState} {inp : TickInput} (hprop : inp.propPlaying = true) :
    (tick ext rng cw ch s inp).1.pending = (tickScored s inp).1.pending := by
  unfold tick
  rw [if_neg (by simp [hprop])]
  split
  · rfl
  · dsimp only
    split <;> rfl

theorem tick_playing_score {ext : ExtMath} {rng : Rng} {cw ch : ℚ}
    {s : SimState} {inp : TickInput} (hprop : inp.propPlaying = true) :
    (tick ext rng cw ch s inp).1.game.score = (tickScored s inp).1.score := by
  unfold tick
  rw [if_neg (by simp [hprop])]
  split
  · rfl
  · dsimp only
    split <;> rfl

theorem tick_playing_flash {ext : ExtMath} {rng : Rng} {cw ch : ℚ}
    {s : SimState} {inp : TickInput} (hprop : inp.propPlaying = true) :
    (tick ext rng cw ch s inp).1.flash = (tickApplied s inp).2.1 := by
  unfold tick
  rw [if_neg (by simp [hprop])]
  split
  · rfl
  · dsimp only
    split <;> rfl

/-- C1: for every ball and not-yet-passed obstacle, checkCollision reports
a collision iff the ball's Euclidean distance from the obstacle center
(the sqrt oracle applied to dx*dx + dy*dy) lies strictly inside the band
(radius - thickness - ballRadius, radius + thickness + ballRadius), with
thickness 20 for the dot ring and 14 otherwise, AND the ball color differs
from the segment color resolved from the rotation-adjusted angle
normalized into [0, 2*MPI) (quadrants for ring / half ring, dot index
floor(angle/(2*MPI)*24) with color index floor(dotIndex/6) mod 4 for the
dot ring, as segmentColorOf spells out).  The normalized angle lies in
[0, 2*MPI) and differs from the raw angle by an integer multiple of
2*MPI.  When the colors are equal no collision is reported; the modelled
check is a pure function, so it mutates no state by construction. -/
theorem C1_checkCollision_iff (ext : ExtMath) (ball : Ball) (o : Obstacle)
    (cx : ℚ) (hp : o.passed = false) :
    (0 ≤ normalizeAngle (ext.atan2q (ball.y - o.y) (ball.x - cx) - o.rotation) ∧
      normalizeAngle (ext.atan2q (ball.y - o.y) (ball.x - cx) - o.rotation) <
        2 * MPI ∧
      ∃ k : ℤ,
        normalizeAngle (ext.atan2q (ball.y - o.y) (ball.x - cx) - o.rotation) =
          ext.atan2q (ball.y - o.y) (ball.x - cx) - o.rotation + k * (2 * MPI)) ∧
    (checkCollision ext ball o cx = true ↔
      (o.radius - (if o.type = .dotCircle then 20 else 14) - ball.radius <
          ext.sqrtq ((ball.x - cx) * (ball.x - cx) +
            (ball.y - o.y) * (ball.y - o.y)) ∧
        ext.sqrtq ((ball.x - cx) * (ball.x - cx) +
            (ball.y - o.y) * (ball.y - o.y)) <
          o.radius + (if o.type = .dotCircle then 20 else 14) + ball.radius ∧
        ball.color ≠
          segmentColorOf o.type
            (normalizeAngle
              (ext.atan2q (ball.y - o.y) (ball.x - cx) - o.rotation)))) := by
  refine ⟨⟨normalizeAngle_nonneg _, normalizeAngle_lt _,
    normalizeAngle_sub_int _⟩, ?_⟩
  unfold checkCollision
  split <;>
  · dsimp only
    split
    · next hband =>
      simp only [Bool.false_eq_true, false_iff]
      rintro ⟨h1, h2, _⟩
      rcases hband with hb | hb
      · exact absurd hb (not_le.mpr h1)
      · exact absurd hb (not_le.mpr h2)
    · next hband =>
      push_neg at hband
      simp only [decide_eq_true_eq]
      exact ⟨fun hne => ⟨hband.1, hband.2, hne⟩, fun h => h.2.2⟩

attribute [local semireducible] Rat.mul Rat.add Rat.sub Rat.inv Rat.ofScientific in
/-- Witness for C1 at a concrete input: a cyan ball sitting on the lane
center 140 px below a ring obstacle with rotation 0 (distance 140 lies in
the band (111, 169) and the segment there is purple, so the theorem's
right-to-left direction reports the collision); the passed hypothesis is
discharged by rfl and the band and color conditions evaluate by decide. -/
theorem C1_checkCollision_iff_witness :
    checkCollision ext₀ ⟨0, 140, 15, 0, .cyan⟩ ⟨0, .ring, 0, 0, 0, 140, false⟩
      0 = true :=
  (C1_checkCollision_iff ext₀ ⟨0, 140, 15, 0, .cyan⟩
      ⟨0, .ring, 0, 0, 0, 140, false⟩ 0 rfl).2.mpr
    ⟨by decide, by decide, by decide⟩

theorem sampleCandidate_bounds (t : ObstacleType) (index : ℕ) (rng : Rng)
    (i : ℕ) (hr : ∀ n, 0 ≤ rng n ∧ rng n < 1) :
    1 / 200 < |sampleCandidate t index rng i| ∧
      sampleCandidate t index rng i ≠ 0 := by
  have h1 := (hr (i + 1)).1
  unfold sampleCandidate
  have hk0 : (0:ℚ) ≤ ((index % 11 : ℕ) : ℚ) := Nat.cast_nonneg _
  have hbase : (1:ℚ) / 125 ≤
      (if t = .dotCircle
        then (1 / 125 + ((index % 11 : ℕ) : ℚ) * (1 / 250)) * (5 / 2)
        else 1 / 125 + ((index % 11 : ℕ) : ℚ) * (1 / 250)) := by
    split <;> nlinarith
  have hrf : (3:ℚ) / 5 ≤ 3 / 5 + rng (i + 1) * 1 := by nlinarith
  set B : ℚ :=
    (if t = .dotCircle
      then (1 / 125 + ((index % 11 : ℕ) : ℚ) * (1 / 250)) * (5 / 2)
      else 1 / 125 + ((index % 11 : ℕ) : ℚ) * (1 / 250)) with hB
  set R : ℚ := 3 / 5 + rng (i + 1) * 1 with hR
  have hprod : (1:ℚ) / 200 < B * R * (6 / 5) := by nlinarith
  split
  · constructor
    · rw [show B * 1 * R * (6/5) = B * R * (6/5) by ring,
        abs_of_pos (by linarith)]
      linarith
    · intro h
      nlinarith [h]
  · constructor
    · rw [show B * (-1) * R * (6/5) = -(B * R * (6/5)) by ring, abs_neg,
        abs_of_pos (by linarith)]
      linarith
    · intro h
      nlinarith [h]

theorem pickSpeed_go_spec (t : ObstacleType) (index : ℕ) (p : ℚ) (rng : Rng)
    (hr : ∀ n, 0 ≤ rng n ∧ rng n < 1) :
    ∀ (fuel attempts i : ℕ), fuel + attempts = 10 → attempts < 10 →
      (pickSpeed t index p rng fuel attempts i).2.1 ≤ 10 ∧
        ((pickSpeed t index p rng fuel attempts i).1 * p < 0 ∨
          |(|(pickSpeed t index p rng fuel attempts i).1| - |p|)| >
            max (|p| * (1 / 5)) (1 / 200) ∨
          (pickSpeed t index p rng fuel attempts i).2.1 = 10) := by
  intro fuel
  induction fuel with
  | zero => intro attempts i hsum hlt; omega
  | succ fuel ih =>
    intro attempts i hsum hlt
    unfold pickSpeed
    dsimp only
    split
    · next hbreak =>
      dsimp only
      rcases Bool.or_eq_true _ _ |>.mp hbreak with hacc | hcap
      · unfold speedAccept at hacc
        rcases Bool.or_eq_true _ _ |>.mp hacc with hdiff | hdir
        · refine ⟨by omega, Or.inr (Or.inl ?_)⟩
          exact of_decide_eq_true hdiff
        · rcases lt_trichotomy p 0 with hp | hp | hp
          · refine ⟨by omega, Or.inl ?_⟩
            have hs : 0 < sampleCandidate t index rng i := by
              by_contra hs
              push_neg at hs
              have e1 : decide (sampleCandidate t index rng i > 0) = false :=
                decide_eq_false (not_lt.mpr hs)
              have e2 : decide (p > 0) = false :=
                decide_eq_false (not_lt.mpr (le_of_lt hp))
              rw [e1, e2] at hdir
              exact absurd hdir (by simp)
            exact mul_neg_of_pos_of_neg hs hp
          · refine ⟨by omega, Or.inr (Or.inl ?_)⟩
            have hs : 0 < sampleCandidate t index rng i := by
              by_contra hs
              push_neg at hs
              have e1 : decide (sampleCandidate t index rng i > 0) = false :=
                decide_eq_false (not_lt.mpr hs)
              have e2 : decide (p > 0) = false :=
                decide_eq_false (by rw [hp]; exact lt_irrefl 0)
              rw [e1, e2] at hdir
              exact absurd hdir (by simp)
            have := (sampleCandidate_bounds t index rng i hr).1
            rw [hp]
            simp only [abs_zero, sub_zero, zero_mul, abs_abs]
            rw [max_eq_right (by norm_num)]
            exact this
          · refine ⟨by omega, Or.inl ?_⟩
            have hs : sampleCandidate t index rng i ≤ 0 := by
              by_contra hs
              push_neg at hs
              have e1 : decide (sampleCandidate t index rng i > 0) = true :=
                decide_eq_true hs
              have e2 : decide (p > 0) = true := decide_eq_true hp
              rw [e1, e2] at hdir
              exact absurd hdir (by simp)
            have hne := (sampleCandidate_bounds t index rng i hr).2
            exact mul_neg_of_neg_of_pos (lt_of_le_of_ne hs hne) hp
      · refine ⟨?_, Or.inr (Or.inr ?_)⟩ <;>
        · have := of_decide_eq_true hcap
          omega
    · next hbreak =>
      have hor : (speedAccept (sampleCandidate t index rng i) p
          || decide (attempts + 1 ≥ 10)) = false := Bool.eq_false_iff.mpr hbreak
      have h2 := Bool.or_eq_false_iff.mp hor
      have hcap : attempts + 1 < 10 := by
        have := of_decide_eq_false h2.2
        omega
      exact ih (attempts + 1) (i + 2) (by omega) (by omega)

/-- C7: the rotation-speed rejection-sampling loop of createObstacle
(with its full budget of 10 attempts and the attempts counter starting at
0, exactly as the source calls it) terminates after at most 10 sampled
candidates, and the accepted speed s relative to the previous speed p
satisfies at least one of: s and p have opposite signs (s * p < 0); the
magnitude difference exceeds max(0.2 * |p|, 0.005); or the 10-attempt
budget was exhausted and the last sample was accepted as-is.  The random
draws are assumed to lie in [0, 1) as Math.random guarantees. -/
theorem C7_pickSpeed_spec (t : ObstacleType) (index : ℕ) (p : ℚ) (rng : Rng)
    (i : ℕ) (hr : ∀ n, 0 ≤ rng n ∧ rng n < 1) :
    (pickSpeed t index p rng 10 0 i).2.1 ≤ 10 ∧
      ((pickSpeed t index p rng 10 0 i).1 * p < 0 ∨
        |(|(pickSpeed t index p rng 10 0 i).1| - |p|)| >
          max (|p| * (1 / 5)) (1 / 200) ∨
        (pickSpeed t index p rng 10 0 i).2.1 = 10) :=
  pickSpeed_go_spec t index p rng hr 10 0 i rfl (by omega)

/-- Witness for C7 at a concrete input: previous speed 0 and the all-1/2
random stream; the budget and range hypotheses are discharged and the
loop's result evaluates by decide. -/
theorem C7_pickSpeed_spec_witness :
    (pickSpeed .ring 1 0 (fun _ => 1 / 2) 10 0 0).2.1 ≤ 10 ∧
      ((pickSpeed .ring 1 0 (fun _ => 1 / 2) 10 0 0).1 * 0 < 0 ∨
        |(|(pickSpeed .ring 1 0 (fun _ => 1 / 2) 10 0 0).1| - |(0:ℚ)|)| >
          max (|(0:ℚ)| * (1 / 5)) (1 / 200) ∨
        (pickSpeed .ring 1 0 (fun _ => 1 / 2) 10 0 0).2.1 = 10) :=
  C7_pickSpeed_spec .ring 1 0 (fun _ => 1 / 2) 0
    (fun _ => by norm_num)

theorem applyPendingStep_velocity (pending : Option PendingColorChange)
    (ts : ℚ) (ball : Ball) (flash : ℚ) :
    (applyPendingStep pending ts ball flash).1.velocity = ball.velocity := by
  unfold applyPendingStep
  cases pending with
  | none => rfl
  | some p => dsimp only; split <;> rfl

theorem applyPendingStep_y (pending : Option PendingColorChange)
    (ts : ℚ) (ball : Ball) (flash : ℚ) :
    (applyPendingStep pending ts ball flash).1.y = ball.y := by
  unfold applyPendingStep
  cases pending with
  | none => rfl
  | some p => dsimp only; split <;> rfl

theorem applyPendingStep_x (pending : Option PendingColorChange)
    (ts : ℚ) (ball : Ball) (flash : ℚ) :
    (applyPendingStep pending ts ball flash).1.x = ball.x := by
  unfold applyPendingStep
  cases pending with
  | none => rfl
  | some p => dsimp only; split <;> rfl

theorem tickBall_velocity (s : SimState) (inp : TickInput) :
    (tickBall s inp).velocity = s.game.ball.velocity + GRAVITY * tickDt s inp := by
  unfold tickBall tickApplied
  dsimp only
  rw [applyPendingStep_velocity]

theorem tickBall_y (s : SimState) (inp : TickInput) :
    (tickBall s inp).y =
      s.game.ball.y +
        (s.game.ball.velocity + GRAVITY * tickDt s inp) * tickDt s inp := by
  unfold tickBall tickApplied
  dsimp only
  rw [applyPendingStep_y, applyPendingStep_velocity]

/-- C8: on every playing tick with elapsed-time factor dt the integrator
updates velocity first and position second (velocity becomes
velocity + 0.35 * dt and y increases by the updated velocity times dt),
after which the camera moves toward the target y - viewportHeight * 0.7
by the fixed smoothing factor 0.1, which is not scaled by dt.  In
particular, from velocity 0 with dt = 1 one tick yields velocity 0.35 and
increases y by exactly 0.35. -/
theorem C8_integrator (ext : ExtMath) (rng : Rng) (cw ch : ℚ) (s : SimState)
    (inp : TickInput) (hprop : inp.propPlaying = true) :
    (tick ext rng cw ch s inp).1.game.ball.velocity =
        s.game.ball.velocity + GRAVITY * tickDt s inp ∧
      (tick ext rng cw ch s inp).1.game.ball.y =
        s.game.ball.y +
          (s.game.ball.velocity + GRAVITY * tickDt s inp) * tickDt s inp ∧
      (tick ext rng cw ch s inp).1.game.cameraY =
        s.game.cameraY +
          ((tick ext rng cw ch s inp).1.game.ball.y - ch * (7 / 10) -
            s.game.cameraY) * (1 / 10) ∧
      (s.game.ball.velocity = 0 → tickDt s inp = 1 →
        (tick ext rng cw ch s inp).1.game.ball.velocity = 7 / 20 ∧
          (tick ext rng cw ch s inp).1.game.ball.y =
            s.game.ball.y + 7 / 20) := by
  rw [tick_playing_ball hprop, tick_playing_camera hprop]
  refine ⟨tickBall_velocity s inp, tickBall_y s inp, rfl, ?_⟩
  intro hv hdt
  rw [tickBall_velocity s inp, tickBall_y s inp, hv, hdt]
  norm_num [GRAVITY]

attribute [local semireducible] Rat.mul Rat.add Rat.sub Rat.inv Rat.ofScientific in
/-- Witness for C8: the first frame of the concrete session (velocity 0,
forced dt = 1) applied through the scenario conjunct, with the
definitions evaluated by decide. -/
theorem C8_integrator_witness :
    (tick ext₀ rng₀ 40 100 (initGame rng₀ 40 100 0)
        ⟨100, false, true⟩).1.game.ball.velocity = 7 / 20 ∧
      (tick ext₀ rng₀ 40 100 (initGame rng₀ 40 100 0)
          ⟨100, false, true⟩).1.game.ball.y =
        (initGame rng₀ 40 100 0).game.ball.y + 7 / 20 :=
  (C8_integrator ext₀ rng₀ 40 100 (initGame rng₀ 40 100 0) ⟨100, false, true⟩
      rfl).2.2.2 (by decide) (by decide)

theorem createObstacle_type (rng : Rng) (i : ℕ) (cw y : ℚ) (index : ℕ)
    (p : ℚ) : (createObstacle rng i cw y index p).1.type =
      claimedTypeOfIndex index := rfl

theorem tickScored_length (s : SimState) (inp : TickInput) :
    (tickScored s inp).2.length = s.game.obstacles.length := by
  unfold tickScored
  rw [scorePhase_obstacles, rotateObs_eq_map]
  simp

/-- C2 (amended): the type of an obstacle spawned by a tick's generation
branch is the deterministic function of the obstacle-array length at the
moment of creation (the index the source passes is
game.obstacles.length): every 5th index gives the dot ring, otherwise
ring and half ring alternate by parity.  This length equals the session
generation count only until pruning first removes an obstacle. -/
theorem C2_spawn_type_of_length (ext : ExtMath) (rng : Rng) (cw ch : ℚ)
    (s : SimState) (inp : TickInput) (o : Obstacle)
    (h : (tick ext rng cw ch s inp).2.2 = [o]) :
    o.type = claimedTypeOfIndex s.game.obstacles.length := by
  have hlen := tickScored_length s inp
  unfold tick at h
  split at h
  · cases h
  · dsimp only at h
    split at h
    · cases h
    · split at h <;>
      · split at h
        · simp at h
        · split at h
          · next htrig =>
            dsimp only at h
            injection h with h1 _
            rw [← h1, createObstacle_type, hlen]
          · simp at h

set_option maxRecDepth 100000 in
attribute [local semireducible] Rat.mul Rat.add Rat.sub Rat.inv Rat.ofScientific in
/-- Counterexample to C2 as stated: in the concrete 26-frame session run
(rng stream rng₀, oracle ext₀, 40 x 100 viewport), six obstacles are
created in total; the sixth created obstacle — generation index 5, which
the claim says must be the dot ring since 5 mod 5 = 0 — is created with
index obstacles.length = 4 (the first initial obstacle having been pruned
two hundred pixels behind the camera) and is therefore a plain ring. -/
theorem C2_counterexample :
    ((allCreated ext₀ rng₀ 40 100 0 inputs₀).get? 5).map Obstacle.type =
        some .ring ∧
      (allCreated ext₀ rng₀ 40 100 0 inputs₀).length = 6 ∧
      claimedTypeOfIndex 5 = .dotCircle ∧
      ObstacleType.ring ≠ ObstacleType.dotCircle :=
  ⟨by decide, by decide, by decide, by decide⟩

set_option maxRecDepth 100000 in
attribute [local semireducible] Rat.mul Rat.add Rat.sub Rat.inv Rat.ofScientific in
/-- Witness for the amended C2: the spawning frame of the concrete run,
with the spawn hypothesis discharged by decide. -/
theorem C2_spawn_type_of_length_witness :
    c2SpawnedOb.type =
      claimedTypeOfIndex c2WitnessState.game.obstacles.length :=
  C2_spawn_type_of_length ext₀ rng₀ 40 100 c2WitnessState
    ⟨1244412 / 175, true, true⟩ c2SpawnedOb (by decide)

theorem tickScored_obstacles (s : SimState) (inp : TickInput) :
    (tickScored s inp).2 =
      s.game.obstacles.map
        (fun o₀ => markPassed (tickBall s inp).y (rotateOb (tickDt s inp) o₀)) := by
  unfold tickScored
  rw [scorePhase_obstacles, rotateObs_eq_map, List.map_map]
  rfl

theorem tick_playing_obstacles {ext : ExtMath} {rng : Rng} {cw ch : ℚ}
    {s : SimState} {inp : TickInput} (hprop : inp.propPlaying = true) :
    (tick ext rng cw ch s inp).1.game.obstacles = (tickScored s inp).2 ∨
    (tick ext rng cw ch s inp).1.game.obstacles =
      ((tickScored s inp).2 ++ (tick ext rng cw ch s inp).2.2).filter
        (fun o => decide (o.y < tickCamera ch s inp + ch + 200)) := by
  unfold tick
  rw [if_neg (by simp [hprop])]
  dsimp only
  split
  · exact Or.inl rfl
  · split <;>
    · split
      · next hfr => right; simp
      · next hfr =>
        split
        · next htrig => right; rfl
        · next htrig => right; simp

/-- C3: the passed flag of an obstacle only ever transitions from false to
true and, once true, the obstacle can produce neither a collision nor a
score increment.  Concretely: every obstacle of the post-tick state is
either freshly spawned or the marked image of a pre-tick obstacle;
marking never unsets an already-true flag (and rotation never touches
it); the collision loop only ever selects an obstacle whose flag is false
at check time, its predicate evaluating to false on every passed
obstacle; and the pass/score step leaves both the accumulator (score,
pending, events) and the obstacle untouched when the flag is already
true.  Iterated over ticks this makes the flag permanent and exempts the
obstacle from collisions and score events forever after. -/
theorem C3_passed_permanent (ext : ExtMath) (rng : Rng) (cw ch : ℚ)
    (s : SimState) (inp : TickInput) (hprop : inp.propPlaying = true) :
    (∀ o ∈ (tick ext rng cw ch s inp).1.game.obstacles,
        (∃ o₀ ∈ s.game.obstacles,
          o = markPassed (tickBall s inp).y (rotateOb (tickDt s inp) o₀)) ∨
        o ∈ (tick ext rng cw ch s inp).2.2) ∧
      (∀ (b : ℚ) (o : Obstacle), o.passed = true → markPassed b o = o) ∧
      (∀ (dt : ℚ) (o : Obstacle), (rotateOb dt o).passed = o.passed) ∧
      (∀ o, tickHit ext cw s inp = some o → o.passed = false) ∧
      (∀ (b₂ : Ball) (cx : ℚ) (o : Obstacle), o.passed = true →
        (!o.passed && checkCollision ext b₂ o cx) = false) ∧
      (∀ (b ts : ℚ) (c : GameColor) (acc : ScoreAcc) (o : Obstacle),
        o.passed = true → passObstacle b ts c acc o = (acc, o)) := by
  refine ⟨?_, markPassed_of_passed, fun _ _ => rfl, ?_, ?_, passObstacle_of_passed⟩
  · intro o ho
    rcases tick_playing_obstacles hprop with he | he
    · rw [he, tickScored_obstacles] at ho
      rcases List.mem_map.mp ho with ⟨o₀, h₀, rfl⟩
      exact Or.inl ⟨o₀, h₀, rfl⟩
    · rw [he] at ho
      rcases List.mem_append.mp (List.mem_filter.mp ho).1 with hm | hm
      · rw [tickScored_obstacles] at hm
        rcases List.mem_map.mp hm with ⟨o₀, h₀, rfl⟩
        exact Or.inl ⟨o₀, h₀, rfl⟩
      · exact Or.inr hm
  · intro o hfind
    have hpred := List.find?_some hfind
    have := (Bool.and_eq_true _ _).mp hpred
    simpa using this.1
  · intro b₂ cx o hpass
    simp [hpass]

/-- Witness for C3 at concrete inputs: an already-passed ring obstacle is
left untouched by the marking step and by the pass/score step (the
playing-prop and passed hypotheses are discharged concretely). -/
theorem C3_passed_permanent_witness :
    markPassed 0 ⟨0, .ring, 0, 0, 0, 140, true⟩ = ⟨0, .ring, 0, 0, 0, 140, true⟩ ∧
      passObstacle 0 0 .cyan ⟨0, none, []⟩ ⟨0, .ring, 0, 0, 0, 140, true⟩ =
        (⟨0, none, []⟩, ⟨0, .ring, 0, 0, 0, 140, true⟩) :=
  ⟨(C3_passed_permanent ext₀ rng₀ 40 100 (initGame rng₀ 40 100 0)
      ⟨100, false, true⟩ rfl).2.1 0 ⟨0, .ring, 0, 0, 0, 140, true⟩ rfl,
    (C3_passed_permanent ext₀ rng₀ 40 100 (initGame rng₀ 40 100 0)
      ⟨100, false, true⟩ rfl).2.2.2.2.2 0 0 .cyan ⟨0, none, []⟩
      ⟨0, .ring, 0, 0, 0, 140, true⟩ rfl⟩

theorem newlyPassedCount_rotate (b dt : ℚ) (l : List Obstacle) :
    newlyPassedCount b (rotateObs dt l) = newlyPassedCount b l := by
  unfold newlyPassedCount
  rw [rotateObs_eq_map, List.filter_map]
  simp only [List.length_map]
  rfl

/-- C4: on every playing tick, before the collision check, the pass/score
loop marks every unpassed obstacle whose margin line
obstacle.y - obstacle.radius - 20 the ball has moved strictly above,
increments the score by exactly one per such obstacle, and emits a
score-changed notification carrying each new score in order; the score
never decreases and changes only by these increments (the post-tick score
is exactly the old score plus the number of newly passed obstacles). -/
theorem C4_pass_scoring (ext : ExtMath) (rng : Rng) (cw ch : ℚ)
    (s : SimState) (inp : TickInput) (hplay : s.game.status = .playing)
    (hprop : inp.propPlaying = true) :
    (tick ext rng cw ch s inp).1.game.score =
        s.game.score + newlyPassedCount (tickBall s inp).y s.game.obstacles ∧
      (tickScored s inp).1.events =
        expectedScoreEvents s.game.score
          (newlyPassedCount (tickBall s inp).y s.game.obstacles) ∧
      (tickScored s inp).2 =
        (rotateObs (tickDt s inp) s.game.obstacles).map
          (markPassed (tickBall s inp).y) ∧
      (∀ o ∈ s.game.obstacles, o.passed = false →
        (tickBall s inp).y < o.y - o.radius - 20 →
        (markPassed (tickBall s inp).y (rotateOb (tickDt s inp) o)).passed =
          true) ∧
      s.game.score ≤ (tick ext rng cw ch s inp).1.game.score := by
  have hscore : (tick ext rng cw ch s inp).1.game.score =
      s.game.score + newlyPassedCount (tickBall s inp).y s.game.obstacles := by
    rw [tick_playing_score hprop]
    unfold tickScored
    rw [scorePhase_score]
    dsimp only
    rw [newlyPassedCount_rotate]
  refine ⟨hscore, ?_, ?_, ?_, ?_⟩
  · unfold tickScored
    rw [scorePhase_events]
    dsimp only
    rw [newlyPassedCount_rotate]
    simp
  · unfold tickScored
    rw [scorePhase_obstacles, rotateObs_eq_map]
  · intro o _ hpass hmargin
    unfold markPassed
    rw [if_pos]
    simp only [rotateOb_passed, hpass, rotateOb_y, rotateOb_radius,
      Bool.not_false, Bool.true_and, decide_eq_true_eq]
    exact hmargin
  · rw [hscore]
    exact Nat.le_add_right _ _

attribute [local semireducible] Rat.mul Rat.add Rat.sub Rat.inv Rat.ofScientific in
/-- Witness for C4: the first frame of the concrete session, with the
playing hypotheses discharged by rfl; no obstacle is newly passed on that
frame, and the definitions evaluate by decide. -/
theorem C4_pass_scoring_witness :
    (tick ext₀ rng₀ 40 100 (initGame rng₀ 40 100 0)
        ⟨100, false, true⟩).1.game.score =
      (initGame rng₀ 40 100 0).game.score +
        newlyPassedCount
          (tickBall (initGame rng₀ 40 100 0) ⟨100, false, true⟩).y
          (initGame rng₀ 40 100 0).game.obstacles :=
  (C4_pass_scoring ext₀ rng₀ 40 100 (initGame rng₀ 40 100 0)
    ⟨100, false, true⟩ rfl rfl).1

/-- C5: at most one deferred color change is pending at any reachable
state (the ref holds a single optional record), and within the pass/score
loop a new one is created exactly at a score increment that makes the
score a multiple of 2 while none is pending — carrying target timestamp
frame-timestamp + 1000 and the successor of the ball's current color —
while an increment reaching a milestone with one already pending is a
no-op: a pending change survives every step of the loop unchanged, and
over the whole loop the pending ref either stays what it was or goes from
none to exactly that record. -/
theorem C5_single_pending_schedule (ext : ExtMath) (rng : Rng)
    (cw ch hs : ℚ) :
    (∀ s, Reachable ext rng cw ch hs s → pendingCount s.pending ≤ 1) ∧
      (∀ (b ts : ℚ) (c : GameColor) (acc : ScoreAcc) (o : Obstacle)
        (p : PendingColorChange), acc.pending = some p →
          (passObstacle b ts c acc o).1.pending = some p) ∧
      (∀ (b ts : ℚ) (c : GameColor) (acc : ScoreAcc) (o : Obstacle),
        acc.pending = none →
          (passObstacle b ts c acc o).1.pending =
            if (!o.passed && decide (b < o.y - o.radius - 20))
                && decide ((acc.score + 1) % 2 = 0)
            then some ⟨ts + 1000, nextColor c⟩ else none) ∧
      (∀ (b ts : ℚ) (c : GameColor) (l : List Obstacle) (acc : ScoreAcc),
        (scorePhase b ts c acc l).1.pending = acc.pending ∨
          (acc.pending = none ∧
            (scorePhase b ts c acc l).1.pending =
              some ⟨ts + 1000, nextColor c⟩)) := by
  refine ⟨?_, passObstacle_pending_some, passObstacle_pending_none,
    scorePhase_pending_cases⟩
  intro s _
  cases s.pending <;> simp [pendingCount]

attribute [local semireducible] Rat.mul Rat.add Rat.sub Rat.inv Rat.ofScientific in
/-- Witness for C5: a score increment from 1 to 2 with no pending change
schedules exactly the record with timestamp 50 + 1000 and the successor
of cyan; the hypotheses are discharged concretely and the definitions
evaluate by decide. -/
theorem C5_single_pending_schedule_witness :
    (passObstacle (-200) 50 .cyan ⟨1, none, []⟩
        ⟨0, .ring, 0, 0, 0, 140, false⟩).1.pending =
      some ⟨1050, .purple⟩ := by
  have h := (C5_single_pending_schedule ext₀ rng₀ 40 100 0).2.2.1 (-200) 50
    .cyan ⟨1, none, []⟩ ⟨0, .ring, 0, 0, 0, 140, false⟩ rfl
  rw [h]
  decide

theorem tickScored_events_countGameOver (s : SimState) (inp : TickInput) :
    countGameOver (tickScored s inp).1.events = 0 := by
  unfold tickScored
  rw [scorePhase_events]
  dsimp only
  rw [List.nil_append]
  exact countGameOver_expected _ _

theorem countGameOver_concat_gameOver (l : List GEvent) (n : ℕ) :
    countGameOver (l ++ [.gameOver n]) = countGameOver l + 1 := by
  unfold countGameOver
  rw [List.filter_append]
  simp [isGameOverEv]

theorem tick_playing_cases {ext : ExtMath} {rng : Rng} {cw ch : ℚ}
    {s : SimState} {inp : TickInput} (hprop : inp.propPlaying = true) :
    (tickHit ext cw s inp ≠ none ∧
      (tick ext rng cw ch s inp).1.game.status = .gameover ∧
      (tick ext rng cw ch s inp).2.1 =
        (tickScored s inp).1.events ++
          [.gameOver (tickScored s inp).1.score]) ∨
    (tickHit ext cw s inp = none ∧ tickFellOut ch s inp ∧
      (tick ext rng cw ch s inp).1.game.status = .gameover ∧
      (tick ext rng cw ch s inp).2.1 =
        (tickScored s inp).1.events ++
          [.gameOver (tickScored s inp).1.score]) ∨
    (tickHit ext cw s inp = none ∧ ¬tickFellOut ch s inp ∧
      (tick ext rng cw ch s inp).1.game.status = s.game.status ∧
      (tick ext rng cw ch s inp).2.1 = (tickScored s inp).1.events) := by
  unfold tick
  rw [if_neg (by simp [hprop])]
  dsimp only
  split
  · next heq => exact Or.inl ⟨by simp [heq], rfl, rfl⟩
  · next heq =>
    split
    · next hb => exact Or.inr (Or.inl ⟨heq, hb, rfl, rfl⟩)
    · next hb => exact Or.inr (Or.inr ⟨heq, hb, rfl, rfl⟩)

/-- C9: on a playing tick the status transitions to gameover exactly via
one of the two paths — a collision against a not-yet-passed obstacle, or
the ball's position exceeding camera + viewportHeight + 50 at the
end-of-tick boundary check, the latter firing precisely when no collision
occurred — and a gameover tick emits exactly one game-over notification,
as its last event, carrying the score at that moment, while a tick that
stays playing emits none; once the status is gameover the session driver
executes no further tick, leaving the state and event log untouched. -/
theorem C9_gameover_paths (ext : ExtMath) (rng : Rng) (cw ch : ℚ)
    (s : SimState) (inp : TickInput) (hplay : s.game.status = .playing)
    (hprop : inp.propPlaying = true) :
    ((tick ext rng cw ch s inp).1.game.status = .gameover ↔
        tickHit ext cw s inp ≠ none ∨
          (tickHit ext cw s inp = none ∧ tickFellOut ch s inp)) ∧
      (countGameOver (tick ext rng cw ch s inp).2.1 =
        if (tick ext rng cw ch s inp).1.game.status = .gameover then 1
        else 0) ∧
      ((tick ext rng cw ch s inp).1.game.status = .gameover →
        (tick ext rng cw ch s inp).2.1.getLast? =
          some (.gameOver (tick ext rng cw ch s inp).1.game.score)) ∧
      (∀ (s' : SimState) (ins : List TickInput),
        s'.game.status = .gameover →
          runSession ext rng cw ch s' ins = (s', [], [])) := by
  have hscore := @tick_playing_score ext rng cw ch s inp hprop
  rcases @tick_playing_cases ext rng cw ch s inp hprop with
    ⟨hhit, hst, hev⟩ | ⟨hhit, hfell, hst, hev⟩ | ⟨hhit, hfell, hst, hev⟩
  · refine ⟨by simp [hst, hhit], ?_, ?_, ?_⟩
    · rw [hev, hst, countGameOver_concat_gameOver,
        tickScored_events_countGameOver, if_pos rfl]
    · intro _
      rw [hev, hscore]
      simp
    · intro s' ins h
      exact runSession_not_playing ext rng cw ch s' ins (by simp [h])
  · refine ⟨by simp [hst, hhit, hfell], ?_, ?_, ?_⟩
    · rw [hev, hst, countGameOver_concat_gameOver,
        tickScored_events_countGameOver, if_pos rfl]
    · intro _
      rw [hev, hscore]
      simp
    · intro s' ins h
      exact runSession_not_playing ext rng cw ch s' ins (by simp [h])
  · have hne : (tick ext rng cw ch s inp).1.game.status ≠ .gameover := by
      rw [hst, hplay]
      simp
    refine ⟨by simp [hne, hhit, hfell], ?_, fun h => absurd h hne, ?_⟩
    · rw [hev, tickScored_events_countGameOver, if_neg hne]
    · intro s' ins h
      exact runSession_not_playing ext rng cw ch s' ins (by simp [h])

attribute [local semireducible] Rat.mul Rat.add Rat.sub Rat.inv Rat.ofScientific in
/-- Witness for C9: the first frame of the concrete session stays playing
(no collision, ball well above the boundary), so by the theorem it emits
no game-over notification; the hypotheses are discharged by rfl and the
count evaluates by decide. -/
theorem C9_gameover_paths_witness :
    countGameOver (tick ext₀ rng₀ 40 100 (initGame rng₀ 40 100 0)
        ⟨100, false, true⟩).2.1 =
      if (tick ext₀ rng₀ 40 100 (initGame rng₀ 40 100 0)
          ⟨100, false, true⟩).1.game.status = .gameover then 1 else 0 :=
  (C9_gameover_paths ext₀ rng₀ 40 100 (initGame rng₀ 40 100 0)
    ⟨100, false, true⟩ rfl rfl).2.1

theorem initGame_pending (rng : Rng) (cw ch hs : ℚ) :
    (initGame rng cw ch hs).pending = none := rfl

theorem tapStep_pending (inp : TickInput) (s : SimState) :
    (tapStep inp s).pending = s.pending := by
  unfold tapStep
  split <;> rfl

theorem tapStep_color (inp : TickInput) (s : SimState) :
    (tapStep inp s).game.ball.color = s.game.ball.color := by
  unfold tapStep
  split <;> rfl

theorem tapStep_status (inp : TickInput) (s : SimState) :
    (tapStep inp s).game.status = s.game.status := by
  unfold tapStep
  split <;> rfl

theorem tapStep_obstacles (inp : TickInput) (s : SimState) :
    (tapStep inp s).game.obstacles = s.game.obstacles := by
  unfold tapStep
  split <;> rfl

theorem tapStep_ball_y (inp : TickInput) (s : SimState) :
    (tapStep inp s).game.ball.y = s.game.ball.y := by
  unfold tapStep
  split <;> rfl

theorem tapStep_velocity_floor (inp : TickInput) (s : SimState)
    (h : -9 ≤ s.game.ball.velocity) :
    -9 ≤ (tapStep inp s).game.ball.velocity := by
  unfold tapStep
  split
  · norm_num [JUMP_FORCE]
  · exact h

theorem tick_not_playing {ext : ExtMath} {rng : Rng} {cw ch : ℚ}
    {s : SimState} {inp : TickInput} (h : inp.propPlaying = false) :
    (tick ext rng cw ch s inp).1 =
      { s with flash := tickFlash₁ s inp, lastTime := inp.ts } := by
  unfold tick
  rw [if_pos h]

theorem applyPendingStep_cases (pending : Option PendingColorChange)
    (ts : ℚ) (ball : Ball) (flash : ℚ) :
    (pending = none ∧ applyPendingStep pending ts ball flash =
        (ball, flash, none)) ∨
      (∃ p, pending = some p ∧ p.timestamp ≤ ts ∧
        applyPendingStep pending ts ball flash =
          ({ ball with color := p.newColor }, 1, none)) ∨
      (∃ p, pending = some p ∧ ts < p.timestamp ∧
        applyPendingStep pending ts ball flash = (ball, flash, some p)) := by
  cases pending with
  | none => exact Or.inl ⟨rfl, rfl⟩
  | some p =>
    unfold applyPendingStep
    dsimp only
    split
    · next hle => exact Or.inr (Or.inl ⟨p, rfl, hle, rfl⟩)
    · next hlt => exact Or.inr (Or.inr ⟨p, rfl, not_le.mp hlt, rfl⟩)

theorem tickBall_color (s : SimState) (inp : TickInput) :
    (tickBall s inp).color = (tickApplied s inp).1.color := rfl

theorem reachable_pendingInv (ext : ExtMath) (rng : Rng) (cw ch hs : ℚ) :
    ∀ s, Reachable ext rng cw ch hs s → pendingInv s := by
  intro s h
  induction h with
  | init =>
    intro p hp
    rw [initGame_pending] at hp
    cases hp
  | tap s' inp h ih =>
    intro p hp
    rw [tapStep_pending] at hp
    rw [tapStep_color]
    exact ih p hp
  | tick s' inp h hplay hts ih =>
    by_cases hprop : inp.propPlaying = true
    · intro p hp
      rw [tick_playing_pending hprop] at hp
      rw [tick_playing_ball hprop, tickBall_color]
      have hta : tickApplied s' inp =
          applyPendingStep s'.pending inp.ts s'.game.ball (tickFlash₁ s' inp) :=
        rfl
      have hp0 : (scorePhase (tickBall s' inp).y inp.ts (tickBall s' inp).color
          ⟨s'.game.score, (tickApplied s' inp).2.2, []⟩
          (rotateObs (tickDt s' inp) s'.game.obstacles)).1.pending = some p := hp
      rcases scorePhase_pending_cases (tickBall s' inp).y inp.ts
          (tickBall s' inp).color (rotateObs (tickDt s' inp) s'.game.obstacles)
          ⟨s'.game.score, (tickApplied s' inp).2.2, []⟩ with hc | ⟨_, hc⟩
      · rw [hc] at hp0
        have hp' : (tickApplied s' inp).2.2 = some p := hp0
        rcases applyPendingStep_cases s'.pending inp.ts s'.game.ball
            (tickFlash₁ s' inp) with ⟨_, he⟩ | ⟨q, _, _, he⟩ | ⟨q, hq, _, he⟩
        · rw [hta, he] at hp'
          cases hp'
        · rw [hta, he] at hp'
          cases hp'
        · rw [hta, he] at hp'
          have hqp : q = p := by
            injection hp'
          rw [hta, he, ← hqp]
          exact ih q hq
      · have hp' := hc.symm.trans hp0
        have hpe : (⟨inp.ts + 1000,
            nextColor (tickBall s' inp).color⟩ : PendingColorChange) = p := by
          injection hp'
        rw [← hpe]
        rfl
    · intro p hp
      have hpf : inp.propPlaying = false := by
        cases hb : inp.propPlaying
        · rfl
        · exact absurd hb hprop
      rw [tick_not_playing hpf] at hp ⊢
      exact ih p hp

/-- C6: the ball's color is always a member of the four-color palette, and
the deferred color change machinery advances it exactly one palette step:
at every reachable state a pending change stores exactly the successor of
the ball's current color (so the color cannot drift between scheduling
and firing), and the application phase — run before physics — fires on
the first tick whose timestamp has reached the target, setting the ball
color to the stored target, the flash intensity to its maximum 1, and
clearing the pending ref, while before the target timestamp it leaves
ball, flash and pending untouched. -/
theorem C6_color_palette_step (ext : ExtMath) (rng : Rng) (cw ch hs : ℚ) :
    (∀ s, Reachable ext rng cw ch hs s → s.game.ball.color ∈ COLOR_ORDER) ∧
      (∀ s p, Reachable ext rng cw ch hs s → s.pending = some p →
        p.newColor = nextColor s.game.ball.color) ∧
      (∀ (pending : Option PendingColorChange) (ts : ℚ) (ball : Ball)
        (flash : ℚ) (p : PendingColorChange), pending = some p →
        p.timestamp ≤ ts →
        applyPendingStep pending ts ball flash =
          ({ ball with color := p.newColor }, 1, none)) ∧
      (∀ (pending : Option PendingColorChange) (ts : ℚ) (ball : Ball)
        (flash : ℚ) (p : PendingColorChange), pending = some p →
        ts < p.timestamp →
        applyPendingStep pending ts ball flash = (ball, flash, some p)) := by
  refine ⟨?_, ?_, ?_, ?_⟩
  · intro s _
    cases s.game.ball.color <;> simp [COLOR_ORDER]
  · intro s p hr hp
    exact reachable_pendingInv ext rng cw ch hs s hr p hp
  · intro pending ts ball flash p hp hle
    subst hp
    unfold applyPendingStep
    dsimp only
    rw [if_pos (by exact hle)]
  · intro pending ts ball flash p hp hlt
    subst hp
    unfold applyPendingStep
    dsimp only
    rw [if_neg (by exact not_le.mpr hlt)]

/-- Witness for C6: the initial state of the concrete session is reachable
and its color is in the palette, and a concrete pending change whose
timestamp has passed fires into the stored color with flash 1 and a
cleared ref; the hypotheses are discharged by Reachable.init, rfl and
norm_num. -/
theorem C6_color_palette_step_witness :
    (initGame rng₀ 40 100 0).game.ball.color ∈ COLOR_ORDER ∧
      applyPendingStep (some ⟨500, .pink⟩) 600 ⟨0, 0, 15, 0, .cyan⟩ (1 / 2) =
        (⟨0, 0, 15, 0, .pink⟩, 1, none) :=
  ⟨(C6_color_palette_step ext₀ rng₀ 40 100 0).1 _ Reachable.init,
    (C6_color_palette_step ext₀ rng₀ 40 100 0).2.2.1 (some ⟨500, .pink⟩) 600
      ⟨0, 0, 15, 0, .cyan⟩ (1 / 2) ⟨500, .pink⟩ rfl (by norm_num)⟩

theorem initGame_obstacles_ys (rng : Rng) (cw ch hs : ℚ) :
    (initGame rng cw ch hs).game.obstacles.map Obstacle.y =
      [ch * (3 / 10) - 0 * OBSTACLE_GAP, ch * (3 / 10) - 1 * OBSTACLE_GAP,
        ch * (3 / 10) - 2 * OBSTACLE_GAP, ch * (3 / 10) - 3 * OBSTACLE_GAP,
        ch * (3 / 10) - 4 * OBSTACLE_GAP] := rfl

theorem initGame_obstacles_length (rng : Rng) (cw ch hs : ℚ) :
    (initGame rng cw ch hs).game.obstacles.length = 5 := rfl

theorem initGame_ball_y (rng : Rng) (cw ch hs : ℚ) :
    (initGame rng cw ch hs).game.ball.y = ch * (7 / 10) := rfl

theorem initGame_velocity (rng : Rng) (cw ch hs : ℚ) :
    (initGame rng cw ch hs).game.ball.velocity = 0 := rfl

theorem initGame_status (rng : Rng) (cw ch hs : ℚ) :
    (initGame rng cw ch hs).game.status = .playing := rfl

theorem tickDt_nonneg {s : SimState} {inp : TickInput}
    (hts : s.lastTime ≤ inp.ts) : 0 ≤ tickDt s inp := by
  unfold tickDt dtOf
  split
  · norm_num
  · exact div_nonneg (sub_nonneg.mpr hts) (by norm_num)

theorem tickBall_vel_floor {s : SimState} {inp : TickInput}
    (hv : -9 ≤ s.game.ball.velocity) (hdt : 0 ≤ tickDt s inp) :
    -9 ≤ (tickBall s inp).velocity := by
  rw [tickBall_velocity]
  have : 0 ≤ GRAVITY * tickDt s inp :=
    mul_nonneg (by norm_num [GRAVITY]) hdt
  linarith

theorem tickBall_y_drop {s : SimState} {inp : TickInput}
    (hv : -9 ≤ s.game.ball.velocity) (hdt : 0 ≤ tickDt s inp) :
    s.game.ball.y - 405 / 7 ≤ (tickBall s inp).y := by
  rw [tickBall_y]
  unfold GRAVITY
  nlinarith [sq_nonneg (tickDt s inp - 90 / 7),
    mul_nonneg (by linarith : (0:ℚ) ≤ s.game.ball.velocity + 9) hdt]

theorem frontierY_tickScored (s : SimState) (inp : TickInput) :
    frontierY (tickScored s inp).2 = frontierY s.game.obstacles := by
  rw [tickScored_obstacles]
  exact frontierY_map_y (fun o => by simp)

theorem tick_gen_spec {ext : ExtMath} {rng : Rng} {cw ch : ℚ}
    {s : SimState} {inp : TickInput} (hprop : inp.propPlaying = true)
    (hhit : tickHit ext cw s inp = none) :
    ((tick ext rng cw ch s inp).2.2 = [] ∧
      (tick ext rng cw ch s inp).1.game.obstacles =
        (tickScored s inp).2.filter
          (fun o => decide (o.y < tickCamera ch s inp + ch + 200)) ∧
      (∀ f, frontierY (tickScored s inp).2 = some f →
        ¬((tickBall s inp).y < f + OBSTACLE_GAP * 2))) ∨
    (∃ f ob, frontierY (tickScored s inp).2 = some f ∧
      (tickBall s inp).y < f + OBSTACLE_GAP * 2 ∧ ob.y = f - OBSTACLE_GAP ∧
      (tick ext rng cw ch s inp).2.2 = [ob] ∧
      (tick ext rng cw ch s inp).1.game.obstacles =
        ((tickScored s inp).2 ++ [ob]).filter
          (fun o => decide (o.y < tickCamera ch s inp + ch + 200))) := by
  unfold tick
  rw [if_neg (by simp [hprop])]
  dsimp only
  split
  · next heq =>
    rw [heq] at hhit
    cases hhit
  · next heq =>
    split <;>
    · split
      · next hfr =>
        refine Or.inl ⟨rfl, by simp, ?_⟩
        intro f hf
        rw [hfr] at hf
        cases hf
      · next hi hfr =>
        split
        · next htrig =>
          exact Or.inr ⟨hi, _, hfr, htrig, rfl, rfl, rfl⟩
        · next htrig =>
          refine Or.inl ⟨rfl, by simp, ?_⟩
          intro f hf
          rw [hfr] at hf
          injection hf with hf
          rw [← hf]
          exact htrig

theorem tick_preserves_obsInv {ext : ExtMath} {rng : Rng} {cw ch : ℚ}
    {s : SimState} {inp : TickInput} (hch : 0 ≤ ch)
    (hts : s.lastTime ≤ inp.ts) (hinv : obsInv s)
    (hplay : s.game.status = .playing) :
    obsInv (tick ext rng cw ch s inp).1 := by
  intro hplay'
  by_cases hprop : inp.propPlaying = true
  · obtain ⟨hne, hv, hfront⟩ := hinv hplay
    have hdt := tickDt_nonneg hts
    have hv' := tickBall_vel_floor hv hdt
    have hdrop := tickBall_y_drop hv hdt
    obtain ⟨f₀, hf₀⟩ := frontierY_ne_nil hne
    have hJ := hfront f₀ hf₀
    have hfr₂ : frontierY (tickScored s inp).2 = some f₀ := by
      rw [frontierY_tickScored]
      exact hf₀
    rcases @tick_playing_cases ext rng cw ch s inp hprop with
      ⟨_, hst, _⟩ | ⟨_, _, hst, _⟩ | ⟨hhit, hfell, hst, _⟩
    · rw [hst] at hplay'
      cases hplay'
    · rw [hst] at hplay'
      cases hplay'
    · have hbound : (tickBall s inp).y ≤ tickCamera ch s inp + ch + 50 := by
        unfold tickFellOut at hfell
        push_neg at hfell
        exact hfell
      rcases tick_gen_spec hprop hhit with
        ⟨hsp, hobs, hnotrig⟩ | ⟨f, ob, hf, htrig, hoby, hsp, hobs⟩
      · have hge : f₀ + OBSTACLE_GAP * 2 ≤ (tickBall s inp).y :=
          not_lt.mp (hnotrig f₀ hfr₂)
        obtain ⟨ostar, hmem, hy⟩ := frontierY_mem hfr₂
        have hpred : (fun o =>
            decide (o.y < tickCamera ch s inp + ch + 200)) ostar = true := by
          simp only [decide_eq_true_eq]
          rw [hy]
          unfold OBSTACLE_GAP at hge
          linarith
        have hmemfil : ostar ∈ (tickScored s inp).2.filter
            (fun o => decide (o.y < tickCamera ch s inp + ch + 200)) :=
          List.mem_filter.mpr ⟨hmem, hpred⟩
        refine ⟨?_, ?_, ?_⟩
        · rw [hobs]
          exact List.ne_nil_of_mem hmemfil
        · rw [tick_playing_ball hprop]
          exact hv'
        · intro f hf'
          rw [hobs] at hf'
          rw [tick_playing_ball hprop]
          have hle : f ≤ ostar.y := frontierY_le_mem hf' hmemfil
          rw [hy] at hle
          unfold OBSTACLE_GAP at hge
          linarith
      · have hfeq : f = f₀ := by
          rw [hf] at hfr₂
          exact Option.some_inj.mp hfr₂
        subst hfeq
        have hJ' : f + OBSTACLE_GAP - 405 / 7 ≤ (tickBall s inp).y := by
          unfold OBSTACLE_GAP at *
          linarith
        have hpred : (fun o =>
            decide (o.y < tickCamera ch s inp + ch + 200)) ob = true := by
          simp only [decide_eq_true_eq]
          rw [hoby]
          unfold OBSTACLE_GAP at *
          linarith
        have hmemfil : ob ∈ ((tickScored s inp).2 ++ [ob]).filter
            (fun o => decide (o.y < tickCamera ch s inp + ch + 200)) :=
          List.mem_filter.mpr
            ⟨List.mem_append.mpr (Or.inr (List.mem_singleton.mpr rfl)), hpred⟩
        refine ⟨?_, ?_, ?_⟩
        · rw [hobs]
          exact List.ne_nil_of_mem hmemfil
        · rw [tick_playing_ball hprop]
          exact hv'
        · intro f' hf'
          rw [hobs] at hf'
          rw [tick_playing_ball hprop]
          have hle : f' ≤ ob.y := frontierY_le_mem hf' hmemfil
          rw [hoby] at hle
          unfold OBSTACLE_GAP at *
          linarith
  · have hpf : inp.propPlaying = false := by
      cases hb : inp.propPlaying
      · rfl
      · exact absurd hb hprop
    rw [tick_not_playing hpf] at hplay' ⊢
    exact hinv hplay'

/-- C10: in every reachable playing state the obstacle list is non-empty
— the session starts with five obstacles, per-tick ascent is bounded by
405/7 px (velocity never drops below the jump impulse -9 and gravity is
0.35 per tick-unit), generation keeps the ball at least one gap below the
frontier, and while the tick stays playing the boundary check bounds the
ball by camera + viewportHeight + 50, which keeps the frontier obstacle
strictly inside the pruning window camera + viewportHeight + 200 — so
the Math.min over obstacle positions in the generation trigger is always
taken over a non-empty list and yields a finite value. -/
theorem C10_obstacles_nonempty (ext : ExtMath) (rng : Rng) (cw ch hs : ℚ)
    (hch : 0 ≤ ch) (s : SimState) (hr : Reachable ext rng cw ch hs s)
    (hplay : s.game.status = .playing) :
    s.game.obstacles ≠ [] ∧ ∃ f, frontierY s.game.obstacles = some f := by
  have hinv : obsInv s := by
    clear hplay
    induction hr with
    | init =>
      intro _
      refine ⟨?_, ?_, ?_⟩
      · intro hnil
        have := initGame_obstacles_length rng cw ch hs
        rw [hnil] at this
        cases this
      · rw [initGame_velocity]
        norm_num
      · intro f hf
        have hys := initGame_obstacles_ys rng cw ch hs
        have hmem4 : ch * (3 / 10) - 4 * OBSTACLE_GAP ∈
            (initGame rng cw ch hs).game.obstacles.map Obstacle.y := by
          rw [hys]
          simp
        obtain ⟨o4, ho4, hoy4⟩ := List.mem_map.mp hmem4
        have hle : f ≤ o4.y := frontierY_le_mem hf ho4
        rw [hoy4] at hle
        rw [initGame_ball_y]
        unfold OBSTACLE_GAP at hle
        linarith
    | tap s' inp h ih =>
      intro hp
      rw [tapStep_status] at hp
      obtain ⟨hne, hv, hfront⟩ := ih hp
      refine ⟨?_, ?_, ?_⟩
      · rw [tapStep_obstacles]
        exact hne
      · exact tapStep_velocity_floor inp s' hv
      · intro f hf
        rw [tapStep_obstacles] at hf
        rw [tapStep_ball_y]
        exact hfront f hf
    | tick s' inp h hplay' hts ih =>
      exact tick_preserves_obsInv hch hts ih hplay'
  exact ⟨(hinv hplay).1, frontierY_ne_nil (hinv hplay).1⟩

/-- Witness for C10: the initial state of the concrete session, with the
viewport, reachability and playing hypotheses discharged concretely. -/
theorem C10_obstacles_nonempty_witness :
    (initGame rng₀ 40 100 0).game.obstacles ≠ [] ∧
      ∃ f, frontierY (initGame rng₀ 40 100 0).game.obstacles = some f :=
  C10_obstacles_nonempty ext₀ rng₀ 40 100 0 (by norm_num) _ Reachable.init
    rfl

end ColorTap
